import Mathlib

/-!
Verification of the manuscript-processing worker's core modules against their
specification: canonical artifact hashing (`artifact_hash.py`), block
extraction (`block_extractor.py`), warning detection (`warning_detector.py`),
artifact assembly (`artifact_builder.py`) and lineage validation
(`artifact_lineage.py`).  Python dictionaries/values are modelled by a `Json`
type, Python strings by `String` (sequences of Unicode code points), and the
external `hashlib` digests by an abstract `HashLib` record of digest
functions.  All definitions are executable and kernel-reducible.
-/

/-- Whitespace characters recognised by Python's `str.strip()` / `\s`
(restricted to the ASCII whitespace set; the manuscripts' claims only involve
ASCII whitespace). -/
def isPySpace (c : Char) : Bool :=
  c = ' ' || c = '\t' || c = '\n' || c = '\x0d' || c = '\x0b' || c = '\x0c'

/-- ASCII decimal digit test, modelling the regex class `\d`. -/
def isDigitChar (c : Char) : Bool :=
  '0'.toNat ≤ c.toNat && c.toNat ≤ '9'.toNat

/-- Python `str.strip()` on a character list: drop whitespace from both ends. -/
def pyStripL (cs : List Char) : List Char :=
  ((cs.dropWhile isPySpace).reverse.dropWhile isPySpace).reverse

/-- Python `str.strip()`. -/
def pyStrip (s : String) : String := ⟨pyStripL s.data⟩

/-- Python `str.lower()` (ASCII case folding). -/
def pyLower (s : String) : String := ⟨s.data.map Char.toLower⟩

/-- Code-point lexicographic `≤` on character lists: this is exactly how
Python compares strings, and how `sort_keys=True` orders JSON object keys. -/
def charListLe : List Char → List Char → Bool
  | [], _ => true
  | _ :: _, [] => false
  | a :: as, b :: bs =>
    if a.toNat < b.toNat then true
    else if b.toNat < a.toNat then false
    else charListLe as bs

/-- Python string `≤`. -/
def strLe (s t : String) : Bool := charListLe s.data t.data

/-- Decimal digits of `n`, least-significant first, with structural fuel
(`fuel ≥ n` suffices), so that the definition reduces in the kernel. -/
def natDigitsAux : Nat → Nat → List Char
  | 0, _ => []
  | fuel + 1, n => if n = 0 then [] else Nat.digitChar (n % 10) :: natDigitsAux fuel (n / 10)

/-- Python `str(n)` for a natural number: decimal representation. -/
def natRepr (n : Nat) : String := if n = 0 then "0" else ⟨(natDigitsAux n n).reverse⟩

/-- Python `str(n)` for an integer. -/
def intRepr (n : Int) : String :=
  if n < 0 then "-" ++ natRepr n.natAbs else natRepr n.toNat

/-- `",".join`, i.e. comma-separated concatenation. -/
def joinComma : List String → String
  | [] => ""
  | [x] => x
  | x :: y :: rest => x ++ "," ++ joinComma (y :: rest)

/-- Substring test `pat in s` (Python `in` on strings), on character lists. -/
def containsSubL (pat : List Char) : List Char → Bool
  | [] => pat.isEmpty
  | c :: rest => pat.isPrefixOf (c :: rest) || containsSubL pat rest

/-- Python `pat in s` for strings. -/
def containsSub (pat s : String) : Bool := containsSubL pat.data s.data

/-- Python values appearing in artifacts: the JSON data model.  Objects are
insertion-ordered key/value lists, exactly like Python dicts. -/
inductive Json where
  | null : Json
  | bool : Bool → Json
  | num : Int → Json
  | str : String → Json
  | arr : List Json → Json
  | obj : List (String × Json) → Json

mutual
/-- Structural (Python `==`) equality test on `Json`. -/
def beqJson : Json → Json → Bool
  | .null, .null => true
  | .bool a, .bool b => a == b
  | .num a, .num b => a == b
  | .str a, .str b => a == b
  | .arr xs, .arr ys => beqJsonList xs ys
  | .obj l1, .obj l2 => beqJsonObj l1 l2
  | _, _ => false
def beqJsonList : List Json → List Json → Bool
  | [], [] => true
  | x :: xs, y :: ys => beqJson x y && beqJsonList xs ys
  | _, _ => false
def beqJsonObj : List (String × Json) → List (String × Json) → Bool
  | [], [] => true
  | (k, v) :: xs, (k', v') :: ys => k == k' && beqJson v v' && beqJsonObj xs ys
  | _, _ => false
end

/-- Duplicate-freedom test for key lists. -/
def nodupKeys : List String → Bool
  | [] => true
  | k :: rest => !(rest.contains k) && nodupKeys rest

mutual
/-- Well-formedness of a `Json` value as the image of a Python dict tree:
object keys are duplicate-free at every nesting level.  (A Python dict can
never hold two bindings of the same key.) -/
def jsonWF : Json → Bool
  | .null => true
  | .bool _ => true
  | .num _ => true
  | .str _ => true
  | .arr xs => jsonWFList xs
  | .obj kvs => nodupKeys (kvs.map Prod.fst) && jsonWFObj kvs
def jsonWFList : List Json → Bool
  | [] => true
  | x :: xs => jsonWF x && jsonWFList xs
def jsonWFObj : List (String × Json) → Bool
  | [] => true
  | (_, v) :: rest => jsonWF v && jsonWFObj rest
end

mutual
theorem beqJson_iff : ∀ a b : Json, beqJson a b = true ↔ a = b
  | .null, .null => by simp [beqJson]
  | .null, .bool _ => by simp [beqJson]
  | .null, .num _ => by simp [beqJson]
  | .null, .str _ => by simp [beqJson]
  | .null, .arr _ => by simp [beqJson]
  | .null, .obj _ => by simp [beqJson]
  | .bool _, .null => by simp [beqJson]
  | .bool a, .bool b => by simp [beqJson]
  | .bool _, .num _ => by simp [beqJson]
  | .bool _, .str _ => by simp [beqJson]
  | .bool _, .arr _ => by simp [beqJson]
  | .bool _, .obj _ => by simp [beqJson]
  | .num _, .null => by simp [beqJson]
  | .num _, .bool _ => by simp [beqJson]
  | .num a, .num b => by simp [beqJson]
  | .num _, .str _ => by simp [beqJson]
  | .num _, .arr _ => by simp [beqJson]
  | .num _, .obj _ => by simp [beqJson]
  | .str _, .null => by simp [beqJson]
  | .str _, .bool _ => by simp [beqJson]
  | .str _, .num _ => by simp [beqJson]
  | .str a, .str b => by simp [beqJson]
  | .str _, .arr _ => by simp [beqJson]
  | .str _, .obj _ => by simp [beqJson]
  | .arr _, .null => by simp [beqJson]
  | .arr _, .bool _ => by simp [beqJson]
  | .arr _, .num _ => by simp [beqJson]
  | .arr _, .str _ => by simp [beqJson]
  | .arr xs, .arr ys => by
    simp only [beqJson, Json.arr.injEq]
    exact beqJsonList_iff xs ys
  | .arr _, .obj _ => by simp [beqJson]
  | .obj _, .null => by simp [beqJson]
  | .obj _, .bool _ => by simp [beqJson]
  | .obj _, .num _ => by simp [beqJson]
  | .obj _, .str _ => by simp [beqJson]
  | .obj _, .arr _ => by simp [beqJson]
  | .obj l1, .obj l2 => by
    simp only [beqJson, Json.obj.injEq]
    exact beqJsonObj_iff l1 l2
theorem beqJsonList_iff : ∀ xs ys : List Json, beqJsonList xs ys = true ↔ xs = ys
  | [], [] => by simp [beqJsonList]
  | [], _ :: _ => by simp [beqJsonList]
  | _ :: _, [] => by simp [beqJsonList]
  | x :: xs, y :: ys => by
    simp only [beqJsonList, Bool.and_eq_true, List.cons.injEq]
    exact and_congr (beqJson_iff x y) (beqJsonList_iff xs ys)
theorem beqJsonObj_iff : ∀ l1 l2 : List (String × Json), beqJsonObj l1 l2 = true ↔ l1 = l2
  | [], [] => by simp [beqJsonObj]
  | [], _ :: _ => by simp [beqJsonObj]
  | _ :: _, [] => by simp [beqJsonObj]
  | (k, v) :: xs, (k', v') :: ys => by
    simp only [beqJsonObj, Bool.and_eq_true, List.cons.injEq, Prod.mk.injEq, beq_iff_eq,
      beqJson_iff v v', beqJsonObj_iff xs ys]
end

/-! ## Canonical hashing (`artifact_hash.py`) -/

/-- JSON escaping of a single character as performed by `json.dumps` with
`ensure_ascii=False`: only `"` and `\` and the C0 control characters are
escaped, everything else (non-ASCII included) is emitted literally. -/
def hexDigitChar (n : Nat) : Char :=
  if n < 10 then Char.ofNat ('0'.toNat + n) else Char.ofNat ('a'.toNat + (n - 10))

def hex4 (n : Nat) : String :=
  ⟨[hexDigitChar (n / 4096 % 16), hexDigitChar (n / 256 % 16),
    hexDigitChar (n / 16 % 16), hexDigitChar (n % 16)]⟩

def escapeChar (c : Char) : String :=
  if c = '"' then "\\\""
  else if c = '\\' then "\\\\"
  else if c = '\n' then "\\n"
  else if c = '\t' then "\\t"
  else if c = '\x0d' then "\\r"
  else if c = '\x08' then "\\b"
  else if c = '\x0c' then "\\f"
  else if c.toNat < 32 then "\\u" ++ hex4 c.toNat
  else ⟨[c]⟩

/-- `json.dumps` of a string value (quoted, escaped, non-ASCII literal). -/
def dumpStr (s : String) : String :=
  "\"" ++ String.join (s.data.map escapeChar) ++ "\""

/-- Key order used by `json.dumps(..., sort_keys=True)` on an object whose
values are already serialized: pairs compared by key only. -/
def keyLe (p q : String × String) : Bool := strLe p.1 q.1

def orderedInsertKV (a : String × String) : List (String × String) → List (String × String)
  | [] => [a]
  | b :: l => if keyLe a b then a :: b :: l else b :: orderedInsertKV a l

/-- Stable sort of serialized object entries by key, modelling Python's
`sorted(d.items())` as used by `json.dumps(..., sort_keys=True)`. -/
def sortKeys : List (String × String) → List (String × String)
  | [] => []
  | a :: l => orderedInsertKV a (sortKeys l)

mutual
/-- `json.dumps(value, sort_keys=True, separators=(',', ':'),
ensure_ascii=False)`: canonical serialization with keys sorted at every
nesting level and no extraneous whitespace. -/
def dumps : Json → String
  | .null => "null"
  | .bool true => "true"
  | .bool false => "false"
  | .num n => intRepr n
  | .str s => dumpStr s
  | .arr xs => "[" ++ joinComma (dumpsList xs) ++ "]"
  | .obj kvs =>
    "\x7b" ++
      joinComma ((sortKeys (dumpsObj kvs)).map (fun p => dumpStr p.1 ++ ":" ++ p.2)) ++
    "\x7d"
termination_by structural j => j
def dumpsList : List Json → List String
  | [] => []
  | x :: xs => dumps x :: dumpsList xs
termination_by structural l => l
/-- Serializes each value of an object, keeping keys: the object entries of
`json.dumps` before key sorting. -/
def dumpsObj : List (String × Json) → List (String × String)
  | [] => []
  | (k, v) :: rest => (k, dumps v) :: dumpsObj rest
termination_by structural l => l
end

/-- UTF-8 encoding of one code point (`str.encode('utf-8')`). -/
def encodeCharUtf8 (c : Char) : List Nat :=
  let n := c.toNat
  if n < 128 then [n]
  else if n < 2048 then [192 + n / 64, 128 + n % 64]
  else if n < 65536 then [224 + n / 4096, 128 + n / 64 % 64, 128 + n % 64]
  else [240 + n / 262144, 128 + n / 4096 % 64, 128 + n / 64 % 64, 128 + n % 64]

/-- `canonical_json.encode('utf-8')`: the byte sequence that is hashed. -/
def encodeUtf8 (s : String) : List Nat :=
  (s.data.map encodeCharUtf8).flatten

/-- The external `hashlib` digests (sha256/sha1/md5), abstractly: each maps a
byte sequence to its lowercase hex digest string.  The repository's logic
never depends on the digests' internals, only on their determinism, which a
function argument models exactly. -/
structure HashLib where
  sha256 : List Nat → String
  sha1 : List Nat → String
  md5 : List Nat → String

/-- `compute_artifact_hash(artifact, algorithm)`: canonical-JSON serialize,
UTF-8 encode, dispatch on the algorithm name, and return
`"algorithm:hexdigest"`; an unsupported algorithm name raises `ValueError`
(modelled by `Except.error`). -/
def compute_artifact_hash (lib : HashLib) (artifact : Json) (algorithm : String) :
    Except String String :=
  let canonical_json := dumps artifact
  let json_bytes := encodeUtf8 canonical_json
  if algorithm = "sha256" then .ok (algorithm ++ ":" ++ lib.sha256 json_bytes)
  else if algorithm = "sha1" then .ok (algorithm ++ ":" ++ lib.sha1 json_bytes)
  else if algorithm = "md5" then .ok (algorithm ++ ":" ++ lib.md5 json_bytes)
  else .error ("Unsupported hash algorithm: " ++ algorithm)

/-- `expected_hash.split(':', 1)` preceded by the `':' in expected_hash`
test: `none` when there is no colon, otherwise the parts before and after
the first colon. -/
def splitFirstColonL : List Char → Option (List Char × List Char)
  | [] => none
  | c :: rest =>
    if c = ':' then some ([], rest)
    else match splitFirstColonL rest with
      | some (l, r) => some (c :: l, r)
      | none => none

def splitFirstColon (s : String) : Option (String × String) :=
  match splitFirstColonL s.data with
  | some (l, r) => some (⟨l⟩, ⟨r⟩)
  | none => none

/-- `verify_artifact_hash(artifact, expected_hash)`: a missing `':'` is a
fatal format error; otherwise recompute with the algorithm named in the
prefix (propagating its error for unsupported algorithms) and compare the
full hash strings. -/
def verify_artifact_hash (lib : HashLib) (artifact : Json) (expected_hash : String) :
    Except String Bool :=
  match splitFirstColon expected_hash with
  | none => .error ("Invalid hash format: " ++ expected_hash ++
      ". Expected format: 'algorithm:hash'")
  | some (algorithm, _expected_digest) =>
    match compute_artifact_hash lib artifact algorithm with
    | .ok actual_hash => .ok (actual_hash == expected_hash)
    | .error e => .error e

/-! ## Order lemmas for the canonical key sort -/

theorem charListLe_total : ∀ a b : List Char, charListLe a b = true ∨ charListLe b a = true
  | [], b => by left; cases b <;> rfl
  | _ :: _, [] => by right; rfl
  | a :: as, b :: bs => by
    rcases Nat.lt_trichotomy a.toNat b.toNat with h | h | h
    · left; simp [charListLe, h]
    · have h1 : ¬ a.toNat < b.toNat := by omega
      have h2 : ¬ b.toNat < a.toNat := by omega
      rcases charListLe_total as bs with ih | ih
      · left; simp [charListLe, h1, h2, ih]
      · right; simp [charListLe, h1, h2, ih]
    · right; simp [charListLe, h]

theorem char_toNat_inj {a b : Char} (h : a.toNat = b.toNat) : a = b := by
  cases a; cases b
  simp only [Char.toNat] at h
  congr 1
  exact UInt32.ext h

theorem charListLe_antisymm : ∀ a b : List Char, charListLe a b = true →
    charListLe b a = true → a = b
  | [], [] => fun _ _ => rfl
  | [], _ :: _ => fun _ h2 => by simp [charListLe] at h2
  | _ :: _, [] => fun h1 _ => by simp [charListLe] at h1
  | a :: as, b :: bs => fun h1 h2 => by
    rcases Nat.lt_trichotomy a.toNat b.toNat with h | h | h
    · have hba : ¬ b.toNat < a.toNat := by omega
      simp [charListLe, h, hba] at h2
    · have hab : ¬ a.toNat < b.toNat := by omega
      have hba : ¬ b.toNat < a.toNat := by omega
      simp only [charListLe, if_neg hab, if_neg hba] at h1 h2
      rw [char_toNat_inj h, charListLe_antisymm as bs h1 h2]
    · have hab : ¬ a.toNat < b.toNat := by omega
      simp [charListLe, hab, h] at h1

theorem charListLe_trans : ∀ a b c : List Char, charListLe a b = true →
    charListLe b c = true → charListLe a c = true
  | [], _, c => fun _ _ => by cases c <;> rfl
  | _ :: _, [], _ => fun h1 _ => by simp [charListLe] at h1
  | _ :: _, _ :: _, [] => fun _ h2 => by simp [charListLe] at h2
  | a :: as, b :: bs, c :: cs => fun h1 h2 => by
    rcases Nat.lt_trichotomy a.toNat b.toNat with hab | hab | hab
    · rcases Nat.lt_trichotomy b.toNat c.toNat with hbc | hbc | hbc
      · have hac : a.toNat < c.toNat := by omega
        simp [charListLe, hac]
      · have hac : a.toNat < c.toNat := by omega
        simp [charListLe, hac]
      · have hbc' : ¬ b.toNat < c.toNat := by omega
        simp [charListLe, hbc', hbc] at h2
    · rcases Nat.lt_trichotomy b.toNat c.toNat with hbc | hbc | hbc
      · have hac : a.toNat < c.toNat := by omega
        simp [charListLe, hac]
      · have hab' : ¬ a.toNat < b.toNat := by omega
        have hba' : ¬ b.toNat < a.toNat := by omega
        have hbc' : ¬ b.toNat < c.toNat := by omega
        have hcb' : ¬ c.toNat < b.toNat := by omega
        have hac' : ¬ a.toNat < c.toNat := by omega
        have hca' : ¬ c.toNat < a.toNat := by omega
        simp only [charListLe, if_neg hab', if_neg hba'] at h1
        simp only [charListLe, if_neg hbc', if_neg hcb'] at h2
        simp only [charListLe, if_neg hac', if_neg hca']
        exact charListLe_trans as bs cs h1 h2
      · have hbc' : ¬ b.toNat < c.toNat := by omega
        simp [charListLe, hbc', hbc] at h2
    · have hab' : ¬ a.toNat < b.toNat := by omega
      simp [charListLe, hab', hab] at h1

/-- The relation actually used to compare serialized object entries. -/
def keyLeP (p q : String × String) : Prop := keyLe p q = true

theorem keyLeP_total (p q : String × String) : keyLeP p q ∨ keyLeP q p :=
  charListLe_total p.1.data q.1.data

theorem keyLeP_trans {p q r : String × String} (h1 : keyLeP p q) (h2 : keyLeP q r) :
    keyLeP p r :=
  charListLe_trans p.1.data q.1.data r.1.data h1 h2

theorem strLe_antisymm {s t : String} (h1 : strLe s t = true) (h2 : strLe t s = true) :
    s = t := by
  cases s; cases t
  exact congrArg String.mk (charListLe_antisymm _ _ h1 h2)

/-- Strict version of `keyLeP`, antisymmetric even on entry pairs. -/
def keyLtP (p q : String × String) : Prop := keyLe p q = true ∧ p.1 ≠ q.1

instance : IsAntisymm (String × String) keyLtP :=
  ⟨fun _ _ h h' => absurd (strLe_antisymm h.1 h'.1) h.2⟩

theorem orderedInsertKV_perm (a : String × String) :
    ∀ l : List (String × String), (orderedInsertKV a l).Perm (a :: l)
  | [] => List.Perm.refl _
  | b :: l => by
    unfold orderedInsertKV
    by_cases h : keyLe a b = true
    · simp [h]
    · simp only [h, if_false]
      exact ((orderedInsertKV_perm a l).cons b).trans (List.Perm.swap a b l)

theorem sortKeys_perm : ∀ l : List (String × String), (sortKeys l).Perm l
  | [] => List.Perm.refl _
  | a :: l => (orderedInsertKV_perm a (sortKeys l)).trans ((sortKeys_perm l).cons a)

theorem orderedInsertKV_pairwise (a : String × String) :
    ∀ l : List (String × String), l.Pairwise keyLeP →
      (orderedInsertKV a l).Pairwise keyLeP
  | [], _ => by simp [orderedInsertKV]
  | b :: l, hp => by
    unfold orderedInsertKV
    by_cases h : keyLe a b = true
    · simp only [h, if_true]
      refine List.Pairwise.cons ?_ hp
      intro x hx
      rcases List.mem_cons.mp hx with rfl | hx
      · exact h
      · exact keyLeP_trans h (List.rel_of_pairwise_cons hp hx)
    · simp only [h, if_false]
      rcases hp with - | ⟨hb, hl⟩
      refine List.Pairwise.cons ?_ (orderedInsertKV_pairwise a _ hl)
      intro x hx
      have hx' := (orderedInsertKV_perm a _).mem_iff.mp hx
      rcases List.mem_cons.mp hx' with rfl | hx''
      · rcases keyLeP_total b x with hh | hh
        · exact hh
        · exact absurd hh h
      · exact hb x hx''

theorem sortKeys_pairwise : ∀ l : List (String × String), (sortKeys l).Pairwise keyLeP
  | [] => List.Pairwise.nil
  | a :: l => orderedInsertKV_pairwise a (sortKeys l) (sortKeys_pairwise l)

/-- Sorting serialized entries by key is permutation-invariant as long as the
keys are duplicate-free: the heart of canonical-hash invariance. -/
theorem sortKeys_eq_of_perm {l1 l2 : List (String × String)}
    (hp : l1.Perm l2) (hnd : (l1.map Prod.fst).Nodup) : sortKeys l1 = sortKeys l2 := by
  have hperm : (sortKeys l1).Perm (sortKeys l2) :=
    (sortKeys_perm l1).trans (hp.trans (sortKeys_perm l2).symm)
  have hnd1 : ((sortKeys l1).map Prod.fst).Nodup :=
    (((sortKeys_perm l1).map Prod.fst).symm).nodup hnd
  have hnd2 : ((sortKeys l2).map Prod.fst).Nodup :=
    (hperm.map Prod.fst).nodup hnd1
  have hstrict : ∀ l : List (String × String), l.Pairwise keyLeP →
      (l.map Prod.fst).Nodup → l.Pairwise keyLtP := by
    intro l hle hnd'
    have hne : l.Pairwise (fun p q : String × String => p.1 ≠ q.1) :=
      List.pairwise_map.mp hnd'
    exact (hle.and hne).imp (fun h => ⟨h.1, h.2⟩)
  exact List.eq_of_perm_of_sorted hperm
    (hstrict _ (sortKeys_pairwise l1) hnd1)
    (hstrict _ (sortKeys_pairwise l2) hnd2)

/-! ## Key-reordering equivalence of JSON values -/

theorem nodupKeys_iff : ∀ l : List String, nodupKeys l = true ↔ l.Nodup
  | [] => by simp [nodupKeys]
  | k :: rest => by
    simp [nodupKeys, nodupKeys_iff rest, List.nodup_cons, List.contains]

theorem dumpsObj_map : ∀ l : List (String × Json),
    dumpsObj l = l.map (fun p => (p.1, dumps p.2))
  | [] => rfl
  | (k, v) :: rest => by simp [dumpsObj, dumpsObj_map rest]

mutual
/-- `KeyPerm A A'` holds when `A'` is `A` with object key/value pairs
reordered at any nesting level (same pairs, any order) — the hypothesis of
the canonical-serialization invariance property. -/
inductive KeyPerm : Json → Json → Prop where
  | null : KeyPerm .null .null
  | bool (b : Bool) : KeyPerm (.bool b) (.bool b)
  | num (n : Int) : KeyPerm (.num n) (.num n)
  | str (s : String) : KeyPerm (.str s) (.str s)
  | arr {xs ys : List Json} : KeyPermList xs ys → KeyPerm (.arr xs) (.arr ys)
  | obj {l1 l2 l3 : List (String × Json)} :
      KeyPermObj l1 l2 → l2.Perm l3 → KeyPerm (.obj l1) (.obj l3)
/-- Pointwise `KeyPerm` on array elements. -/
inductive KeyPermList : List Json → List Json → Prop where
  | nil : KeyPermList [] []
  | cons {x y : Json} {xs ys : List Json} :
      KeyPerm x y → KeyPermList xs ys → KeyPermList (x :: xs) (y :: ys)
/-- Pointwise key-preserving `KeyPerm` on object entries. -/
inductive KeyPermObj : List (String × Json) → List (String × Json) → Prop where
  | nil : KeyPermObj [] []
  | cons {k : String} {v w : Json} {l1 l2 : List (String × Json)} :
      KeyPerm v w → KeyPermObj l1 l2 → KeyPermObj ((k, v) :: l1) ((k, w) :: l2)
end

mutual
theorem keyPerm_dumps : ∀ {a b : Json}, KeyPerm a b → jsonWF a = true →
    dumps a = dumps b
  | _, _, .null, _ => rfl
  | _, _, .bool _, _ => rfl
  | _, _, .num _, _ => rfl
  | _, _, .str _, _ => rfl
  | _, _, .arr h, hw => by
    have hw' := by simpa [jsonWF] using hw
    simp only [dumps]
    rw [keyPermList_dumps h hw']
  | _, _, @KeyPerm.obj l1 l2 l3 hobj hperm, hw => by
    have hw' := by simpa [jsonWF, Bool.and_eq_true] using hw
    have he := keyPermObj_dumps hobj hw'.2
    have hpm : (dumpsObj l2).Perm (dumpsObj l3) := by
      rw [dumpsObj_map, dumpsObj_map]
      exact hperm.map _
    have hpm13 : (dumpsObj l1).Perm (dumpsObj l3) := by rw [he]; exact hpm
    have hnd : ((dumpsObj l1).map Prod.fst).Nodup := by
      rw [dumpsObj_map, List.map_map]
      exact (nodupKeys_iff _).mp hw'.1
    simp only [dumps]
    rw [sortKeys_eq_of_perm hpm13 hnd]
theorem keyPermList_dumps : ∀ {xs ys : List Json}, KeyPermList xs ys →
    jsonWFList xs = true → dumpsList xs = dumpsList ys
  | _, _, .nil, _ => rfl
  | _, _, .cons h hs, hw => by
    have hw' := by simpa [jsonWFList, Bool.and_eq_true] using hw
    simp only [dumpsList]
    rw [keyPerm_dumps h hw'.1, keyPermList_dumps hs hw'.2]
theorem keyPermObj_dumps : ∀ {l1 l2 : List (String × Json)}, KeyPermObj l1 l2 →
    jsonWFObj l1 = true → dumpsObj l1 = dumpsObj l2
  | _, _, .nil, _ => rfl
  | _, _, .cons h hs, hw => by
    have hw' := by simpa [jsonWFObj, Bool.and_eq_true] using hw
    simp only [dumpsObj]
    rw [keyPerm_dumps h hw'.1, keyPermObj_dumps hs hw'.2]
end

/-! ## Hash-module claim theorems -/

theorem splitFirstColonL_of_no_colon : ∀ l : List Char, (∀ c ∈ l, c ≠ ':') →
    splitFirstColonL l = none
  | [] => fun _ => rfl
  | c :: rest => fun h => by
    have hc : ¬ (c = ':') := h c (List.mem_cons_self c rest)
    simp [splitFirstColonL, hc,
      splitFirstColonL_of_no_colon rest (fun x hx => h x (List.mem_cons_of_mem c hx))]

theorem splitFirstColonL_append : ∀ (pre : List Char), (∀ c ∈ pre, c ≠ ':') →
    ∀ post : List Char, splitFirstColonL (pre ++ ':' :: post) = some (pre, post)
  | [] => fun _ post => by simp [splitFirstColonL]
  | c :: rest => fun h post => by
    have hc : ¬ (c = ':') := h c (List.mem_cons_self c rest)
    simp [splitFirstColonL, hc,
      splitFirstColonL_append rest (fun x hx => h x (List.mem_cons_of_mem c hx)) post]

theorem splitFirstColon_of_parts (p d : String) (hp : ∀ c ∈ p.data, c ≠ ':') :
    splitFirstColon (p ++ ":" ++ d) = some (p, d) := by
  unfold splitFirstColon
  have hdata : (p ++ ":" ++ d).data = p.data ++ ':' :: d.data := by
    simp [String.data_append]
  rw [hdata, splitFirstColonL_append p.data hp d.data]

theorem string_append_right_inj {a b c : String} (h : a ++ b = a ++ c) : b = c := by
  cases b; cases c
  have hd := congrArg String.data h
  simp only [String.data_append] at hd
  exact congrArg String.mk (List.append_cancel_left hd)

/-- C2.  For every artifact value `A`, verifying `A` against the hash just
computed for it (default sha256 algorithm) succeeds: the algorithm is parsed
back from the prefix, the recomputation is identical, and the string
comparison holds. -/
theorem verify_artifact_hash_roundtrip (lib : HashLib) (A : Json) (h : String)
    (hc : compute_artifact_hash lib A "sha256" = .ok h) :
    verify_artifact_hash lib A h = .ok true := by
  have hh : h = "sha256" ++ ":" ++ lib.sha256 (encodeUtf8 (dumps A)) := by
    simpa [compute_artifact_hash] using hc.symm
  subst hh
  unfold verify_artifact_hash
  rw [splitFirstColon_of_parts "sha256" _ (by decide)]
  simp [compute_artifact_hash]

/-- C2 witness: a concrete artifact, digest function, and hash. -/
theorem verify_artifact_hash_roundtrip_witness :
    verify_artifact_hash ⟨fun _ => "00ff", fun _ => "", fun _ => ""⟩
      (Json.obj [("a", .num 1)]) "sha256:00ff" = .ok true :=
  verify_artifact_hash_roundtrip ⟨fun _ => "00ff", fun _ => "", fun _ => ""⟩
    (Json.obj [("a", .num 1)]) "sha256:00ff" (by rfl)

/-- C1.  Canonical-serialization invariance: reordering object keys at any
nesting level (keeping the same key/value pairs) leaves
`compute_artifact_hash` unchanged, because the canonical serialization sorts
keys at every level. -/
theorem compute_artifact_hash_key_order_invariant (lib : HashLib) (algorithm : String)
    (A A' : Json) (hw : jsonWF A = true) (hkp : KeyPerm A A') :
    compute_artifact_hash lib A algorithm = compute_artifact_hash lib A' algorithm := by
  unfold compute_artifact_hash
  rw [keyPerm_dumps hkp hw]

/-- C1 witness: a two-key object and its reordering hash identically. -/
theorem compute_artifact_hash_key_order_invariant_witness :
    compute_artifact_hash ⟨fun _ => "d0", fun _ => "d1", fun _ => "d2"⟩
        (Json.obj [("b", .num 1), ("a", .num 2)]) "sha256" =
      compute_artifact_hash ⟨fun _ => "d0", fun _ => "d1", fun _ => "d2"⟩
        (Json.obj [("a", .num 2), ("b", .num 1)]) "sha256" :=
  compute_artifact_hash_key_order_invariant _ "sha256" _ _ (by decide)
    (KeyPerm.obj
      (KeyPermObj.cons (KeyPerm.num 1) (KeyPermObj.cons (KeyPerm.num 2) KeyPermObj.nil))
      (List.Perm.swap ("a", Json.num 2) ("b", Json.num 1) []))

/-- C9.  Error modes of the hash module: (1) a digest mismatch makes
`verify_artifact_hash` return a normal `ok false`, never an error; (2) an
algorithm name outside sha256/sha1/md5 makes `compute_artifact_hash` (and
hence verification against such a prefix) raise the fatal
"Unsupported hash algorithm" error; (3) an expected hash lacking a `':'`
separator is a fatal "Invalid hash format" error. -/
theorem hash_error_modes (lib : HashLib) (A : Json) (alg d s : String) :
    (d ≠ lib.sha256 (encodeUtf8 (dumps A)) →
      verify_artifact_hash lib A ("sha256" ++ ":" ++ d) = .ok false)
  ∧ (alg ≠ "sha256" → alg ≠ "sha1" → alg ≠ "md5" →
      compute_artifact_hash lib A alg =
          .error ("Unsupported hash algorithm: " ++ alg)
        ∧ ((∀ c ∈ alg.data, c ≠ ':') →
          verify_artifact_hash lib A (alg ++ ":" ++ d) =
            .error ("Unsupported hash algorithm: " ++ alg)))
  ∧ ((∀ c ∈ s.data, c ≠ ':') →
      verify_artifact_hash lib A s =
        .error ("Invalid hash format: " ++ s ++ ". Expected format: 'algorithm:hash'")) := by
  refine ⟨?_, ?_, ?_⟩
  · intro hne
    have hcomp : compute_artifact_hash lib A "sha256" =
        .ok ("sha256" ++ ":" ++ lib.sha256 (encodeUtf8 (dumps A))) := by
      simp [compute_artifact_hash]
    have hbeq : ("sha256" ++ ":" ++ lib.sha256 (encodeUtf8 (dumps A)) ==
        "sha256" ++ ":" ++ d) = false := by
      apply beq_eq_false_iff_ne.mpr
      intro hcontra
      exact hne (string_append_right_inj hcontra).symm
    unfold verify_artifact_hash
    rw [splitFirstColon_of_parts "sha256" _ (by decide)]
    simp only [hcomp, hbeq]
  · intro h1 h2 h3
    have hcomp : compute_artifact_hash lib A alg =
        .error ("Unsupported hash algorithm: " ++ alg) := by
      simp [compute_artifact_hash, h1, h2, h3]
    refine ⟨hcomp, fun hcolon => ?_⟩
    unfold verify_artifact_hash
    rw [splitFirstColon_of_parts alg d hcolon]
    simp only [hcomp]
  · intro hcolon
    unfold verify_artifact_hash splitFirstColon
    rw [splitFirstColonL_of_no_colon s.data hcolon]

/-- C9 witness: concrete mismatching digest, unsupported algorithm, and
colon-free expected hash. -/
theorem hash_error_modes_witness :
    verify_artifact_hash ⟨fun _ => "aa", fun _ => "", fun _ => ""⟩ Json.null
        ("sha256" ++ ":" ++ "bb") = .ok false
  ∧ compute_artifact_hash ⟨fun _ => "aa", fun _ => "", fun _ => ""⟩ Json.null "sha512" =
      .error ("Unsupported hash algorithm: " ++ "sha512")
  ∧ verify_artifact_hash ⟨fun _ => "aa", fun _ => "", fun _ => ""⟩ Json.null "deadbeef" =
      .error ("Invalid hash format: " ++ "deadbeef" ++ ". Expected format: 'algorithm:hash'") :=
  ⟨(hash_error_modes ⟨fun _ => "aa", fun _ => "", fun _ => ""⟩ Json.null "sha512" "bb"
      "deadbeef").1 (by decide),
   ((hash_error_modes ⟨fun _ => "aa", fun _ => "", fun _ => ""⟩ Json.null "sha512" "bb"
      "deadbeef").2.1 (by decide) (by decide) (by decide)).1,
   (hash_error_modes ⟨fun _ => "aa", fun _ => "", fun _ => ""⟩ Json.null "sha512" "bb"
      "deadbeef").2.2 (by decide)⟩

/-! ## Block extraction (`block_extractor.py`) -/

/-- `"".join` of a list of strings. -/
def joinAll : List String → String
  | [] => ""
  | s :: rest => s ++ joinAll rest

/-- One styled run of a DOCX paragraph (the `python-docx` `Run` fields read
by the extractor). -/
structure Run where
  text : String
  italic : Bool
  bold : Bool
  smallCaps : Bool
  fontName : Option String

/-- A DOCX paragraph: style runs plus the paragraph style name;
`para.text` is the concatenation of the run texts. -/
structure Para where
  runs : List Run
  style : Option String

def paraText (p : Para) : String := joinAll (p.runs.map Run.text)

/-- A span with inline marks (`{text, marks}`). -/
structure Span where
  text : String
  marks : List String

/-- One typed content block: the dict built by the extractor.  `text` and
`spans` keys are optional; an empty `meta`/`sourceLoc` list models the
absent key. -/
structure Block where
  id : String
  type : String
  text : Option String
  spans : Option (List Span)
  meta : List (String × Json)
  sourceLoc : List (String × Json)

/-- `\s+` at the start of the text: requires at least one whitespace
character and consumes the maximal run (exact for `\s+\d+`). -/
def wsPlus : List Char → Option (List Char)
  | [] => none
  | c :: rest => if isPySpace c then some (rest.dropWhile isPySpace) else none

def startsDigit : List Char → Bool
  | [] => false
  | c :: _ => isDigitChar c

/-- Case-insensitive literal prefix match, returning the remainder. -/
def startsWithCI : List Char → List Char → Option (List Char)
  | [], cs => some cs
  | _ :: _, [] => none
  | p :: ps, c :: cs => if p.toLower = c.toLower then startsWithCI ps cs else none

/-- `^<kw>\s+\d+` with `re.IGNORECASE` (`kw` given lowercase). -/
def matchChapterKeyword (kw : String) (cs : List Char) : Bool :=
  match startsWithCI kw.data cs with
  | some rest =>
    match wsPlus rest with
    | some rest2 => startsDigit rest2
    | none => false
  | none => false

/-- `^\d+\.`. -/
def matchLeadingNumberDot (cs : List Char) : Bool :=
  let ds := cs.takeWhile isDigitChar
  !ds.isEmpty &&
    (match cs.drop ds.length with
      | '.' :: _ => true
      | _ => false)

/-- The `CHAPTER_PATTERNS` battery: `^Chapter\s+\d+` / `^CHAPTER\s+\d+`
(identical under `re.IGNORECASE`), `^Ch\.\s+\d+`, `^\d+\.`,
`^Part\s+\d+` / `^PART\s+\d+`. -/
def matchesChapterPattern (cs : List Char) : Bool :=
  matchChapterKeyword "chapter" cs || matchChapterKeyword "ch." cs ||
    matchLeadingNumberDot cs || matchChapterKeyword "part" cs

def expectCharWS (c : Char) (cs : List Char) : Option (List Char) :=
  match cs.dropWhile isPySpace with
  | [] => none
  | d :: rest => if d = c then some rest else none

def isOnlyWS (cs : List Char) : Bool := (cs.dropWhile isPySpace).isEmpty

/-- `^\s*\*\s*\*\s*\*\s*$`. -/
def sceneBreakStars (cs : List Char) : Bool :=
  match expectCharWS '*' cs with
  | some r1 =>
    match expectCharWS '*' r1 with
    | some r2 =>
      match expectCharWS '*' r2 with
      | some r3 => isOnlyWS r3
      | none => false
    | none => false
  | none => false

/-- `^\s*<c>\s*$` for a single marker character. -/
def sceneBreakSingle (c : Char) (cs : List Char) : Bool :=
  match expectCharWS c cs with
  | some r => isOnlyWS r
  | none => false

/-- `^\s*-{3,}\s*$`. -/
def sceneBreakHyphens (cs : List Char) : Bool :=
  let rest := cs.dropWhile isPySpace
  let hy := rest.takeWhile (fun c => c = '-')
  decide (3 ≤ hy.length) && isOnlyWS (rest.drop hy.length)

/-- The `SCENE_BREAK_PATTERNS` battery. -/
def matchesSceneBreak (cs : List Char) : Bool :=
  sceneBreakStars cs || sceneBreakSingle '#' cs || sceneBreakSingle '~' cs ||
    sceneBreakHyphens cs

/-- Numeric value of a digit run (`int(...)`). -/
def digitsVal (cs : List Char) : Nat :=
  cs.foldl (fun a c => 10 * a + (c.toNat - '0'.toNat)) 0

/-- `re.search(r'\d+', text)` followed by `int(match.group())`: the first
maximal digit run, as a number. -/
def firstEmbeddedInt : List Char → Option Nat
  | [] => none
  | c :: rest =>
    if isDigitChar c then some (digitsVal ((c :: rest).takeWhile isDigitChar))
    else firstEmbeddedInt rest

/-- `FRONT_MATTER_KEYWORDS`, in dict insertion order. -/
def FRONT_MATTER_KEYWORDS : List (String × String) :=
  [("dedication", "front_matter_dedication"),
   ("copyright", "front_matter_copyright"),
   ("title", "front_matter_title"),
   ("contents", "toc_marker"),
   ("table of contents", "toc_marker")]

/-- `BACK_MATTER_KEYWORDS`, in dict insertion order. -/
def BACK_MATTER_KEYWORDS : List (String × String) :=
  [("about the author", "back_matter_about_author"),
   ("about author", "back_matter_about_author"),
   ("also by", "back_matter_also_by")]

/-- First keyword (in iteration order) contained in the lowercased text. -/
def findKeyword (tl : List Char) : List (String × String) → Option (String × String)
  | [] => none
  | (kw, bt) :: rest => if containsSubL kw.data tl then some (kw, bt) else findKeyword tl rest

def startsWithS (pat s : String) : Bool := pat.data.isPrefixOf s.data

/-- `_detect_block_type(text, style, in_front_matter, in_back_matter)`:
scene break, then chapter patterns (recording the first embedded integer),
then front-matter keywords, then back-matter keywords, then the region
fallbacks, else `paragraph`.  The `style` argument is accepted but unused,
exactly as in the source. -/
def detect_block_type (text : String) (_style : Option String)
    (in_front_matter in_back_matter : Bool) : String × List (String × Json) :=
  let text_lower := text.data.map Char.toLower
  if matchesSceneBreak text.data then ("scene_break", [("pattern", Json.str text)])
  else if matchesChapterPattern text.data then
    let meta :=
      match firstEmbeddedInt text.data with
      | some n => [("chapter_number", Json.num n)]
      | none => []
    ("chapter_heading", meta)
  else
    match findKeyword text_lower FRONT_MATTER_KEYWORDS with
    | some (kw, bt) => (bt, [("detected_keyword", Json.str kw)])
    | none =>
      match findKeyword text_lower BACK_MATTER_KEYWORDS with
      | some (kw, bt) => (bt, [("detected_keyword", Json.str kw)])
      | none =>
        if in_front_matter then ("front_matter_dedication", [])
        else if in_back_matter then ("back_matter_about_author", [])
        else ("paragraph", [])

/-- `f"b_{n:06d}"`: zero-pad the decimal representation to six digits. -/
def padZeros6 (cs : List Char) : List Char := List.replicate (6 - cs.length) '0' ++ cs

/-- `_generate_block_id` output for counter value `n`. -/
def formatBlockId (n : Nat) : String := "b_" ++ ⟨padZeros6 (natRepr n).data⟩

/-- Python dict assignment `d[k] = v`: update in place or append. -/
def dictSet (l : List (String × Json)) (k : String) (v : Json) : List (String × Json) :=
  match l with
  | [] => [(k, v)]
  | (k', v') :: rest => if k' = k then (k, v) :: rest else (k', v') :: dictSet rest k v

/-- State threaded by every extractor loop: (in_front_matter,
in_back_matter, chapter_count) after the sequential updates the source
performs per emitted block, plus the possibly-overwritten meta. -/
def updateExtractState (bt : String) (meta : List (String × Json))
    (in_front in_back : Bool) (chapters : Nat) :
    (List (String × Json)) × Bool × Bool × Nat :=
  let chapters' := if bt = "chapter_heading" then chapters + 1 else chapters
  let meta' :=
    if bt = "chapter_heading" then dictSet meta "chapter_number" (Json.num chapters')
    else meta
  let in_front1 := if bt = "chapter_heading" then false else in_front
  let in_front2 :=
    if startsWithS "front_matter" bt || bt = "toc_marker" then true else in_front1
  let in_back' := if startsWithS "back_matter" bt then true else in_back
  let in_front3 := if startsWithS "back_matter" bt then false else in_front2
  (meta', in_front3, in_back', chapters')

/-- The per-line loop of `_extract_txt`: strips each line, skips blanks,
classifies, applies the state updates, and emits one block (plain text, no
source location) with the next sequential id. -/
def extractTxtGo : Nat → Bool → Bool → Nat → List String → List Block
  | _, _, _, _, [] => []
  | counter, in_front, in_back, chapters, line :: rest =>
    let t := pyStrip line
    if t.data.isEmpty then extractTxtGo counter in_front in_back chapters rest
    else
      let det := detect_block_type t none in_front in_back
      let upd := updateExtractState det.1 det.2 in_front in_back chapters
      let block : Block := ⟨formatBlockId (counter + 1), det.1, some t, none, upd.1, []⟩
      block :: extractTxtGo (counter + 1) upd.2.1 upd.2.2.1 upd.2.2.2 rest

/-- `_extract_txt`, block list only (the block counter is reset to 0 at the
start of every `extract` call). -/
def extract_txt (lines : List String) : List Block :=
  extractTxtGo 0 true false 0 lines

/-- `_extract_spans_from_para`: one span per non-empty run, with marks
`italic`, `bold`, `smallcaps`, `code` (monospace font name) in that order. -/
def extract_spans_from_runs : List Run → List Span
  | [] => []
  | r :: rest =>
    if r.text.data.isEmpty then extract_spans_from_runs rest
    else
      let marks :=
        (if r.italic then ["italic"] else []) ++
        (if r.bold then ["bold"] else []) ++
        (if r.smallCaps then ["smallcaps"] else []) ++
        (match r.fontName with
          | some nm => if containsSub "mono" (pyLower nm) then ["code"] else []
          | none => [])
      ⟨r.text, marks⟩ :: extract_spans_from_runs rest

/-- The content choice of `_extract_docx`: multiple spans, or a single
marked span, are stored as `spans`; otherwise the stripped text is stored
as `text`. -/
def blockContent (spans : List Span) (t : String) : Option String × Option (List Span) :=
  match spans with
  | [] => (some t, none)
  | [s] => if s.marks.isEmpty then (some t, none) else (none, some [s])
  | s1 :: s2 :: ss => (none, some (s1 :: s2 :: ss))

/-- The per-paragraph loop of `_extract_docx`. -/
def extractDocxGo : Nat → Bool → Bool → Nat → Nat → List Para → List Block
  | _, _, _, _, _, [] => []
  | counter, in_front, in_back, chapters, para_idx, p :: rest =>
    let t := pyStrip (paraText p)
    if t.data.isEmpty then extractDocxGo counter in_front in_back chapters (para_idx + 1) rest
    else
      let det := detect_block_type t p.style in_front in_back
      let upd := updateExtractState det.1 det.2 in_front in_back chapters
      let spans := extract_spans_from_runs p.runs
      let content := blockContent spans t
      let block : Block := ⟨formatBlockId (counter + 1), det.1, content.1, content.2,
        upd.1, [("doc_paragraph_index", Json.num para_idx)]⟩
      block :: extractDocxGo (counter + 1) upd.2.1 upd.2.2.1 upd.2.2.2 (para_idx + 1) rest

/-- `_extract_docx`, block list only. -/
def extract_docx (paras : List Para) : List Block :=
  extractDocxGo 0 true false 0 0 paras

/-- The per-line loop of `_extract_pdf` within one page, also returning the
final (counter, in_front, in_back, chapters) state for the next page. -/
def extractPdfLines : Nat → Bool → Bool → Nat → Nat → List String →
    List Block × (Nat × Bool × Bool × Nat)
  | counter, in_front, in_back, chapters, _, [] => ([], (counter, in_front, in_back, chapters))
  | counter, in_front, in_back, chapters, page_num, line :: rest =>
    let t := pyStrip line
    if t.data.isEmpty then extractPdfLines counter in_front in_back chapters page_num rest
    else
      let det := detect_block_type t none in_front in_back
      let upd := updateExtractState det.1 det.2 in_front in_back chapters
      let block : Block := ⟨formatBlockId (counter + 1), det.1, some t, none, upd.1,
        [("doc_page_number", Json.num page_num)]⟩
      let r := extractPdfLines (counter + 1) upd.2.1 upd.2.2.1 upd.2.2.2 page_num rest
      (block :: r.1, r.2)

/-- Python `text.split('\n')` (keeps empty segments). -/
def splitNLAux : List Char → List Char → List String
  | [], acc => [⟨acc.reverse⟩]
  | c :: rest, acc =>
    if c = '\n' then ⟨acc.reverse⟩ :: splitNLAux rest [] else splitNLAux rest (c :: acc)

def pySplitNL (s : String) : List String := splitNLAux s.data []

/-- The per-page loop of `_extract_pdf`: each page's extracted text is split
on newlines; pages are numbered from 1. -/
def extractPdfPages : Nat → Bool → Bool → Nat → Nat → List String → List Block
  | _, _, _, _, _, [] => []
  | counter, in_front, in_back, chapters, page_num, page :: rest =>
    let r := extractPdfLines counter in_front in_back chapters page_num (pySplitNL page)
    r.1 ++ extractPdfPages r.2.1 r.2.2.1 r.2.2.2.1 r.2.2.2.2 (page_num + 1) rest

/-- `_extract_pdf`, block list only. -/
def extract_pdf (pages : List String) : List Block :=
  extractPdfPages 0 true false 0 1 pages

/-! ## Block id arithmetic -/

theorem natDigitsAux_eq : ∀ fuel n : Nat, n ≤ fuel →
    natDigitsAux fuel n = (Nat.digits 10 n).map Nat.digitChar
  | 0, n, h => by
    have : n = 0 := Nat.le_zero.mp h
    subst this
    simp [natDigitsAux]
  | fuel + 1, n, h => by
    by_cases h0 : n = 0
    · subst h0; simp [natDigitsAux]
    · have hdiv : n / 10 ≤ fuel := by
        have : n / 10 < n := Nat.div_lt_self (Nat.pos_of_ne_zero h0) (by norm_num)
        omega
      rw [natDigitsAux, if_neg h0, natDigitsAux_eq fuel (n / 10) hdiv,
        Nat.digits_def' (by norm_num : (1 : ℕ) < 10) (Nat.pos_of_ne_zero h0)]
      simp

theorem natRepr_pos_data {n : Nat} (h : n ≠ 0) :
    (natRepr n).data = ((Nat.digits 10 n).map Nat.digitChar).reverse := by
  unfold natRepr
  rw [if_neg h, natDigitsAux_eq n n le_rfl]

theorem digitChar_inj_lt10 (a b : Nat) (ha : a < 10) (hb : b < 10)
    (h : Nat.digitChar a = Nat.digitChar b) : a = b := by
  have key : ∀ x y : Fin 10, Nat.digitChar x.val = Nat.digitChar y.val → x = y := by decide
  have := key ⟨a, ha⟩ ⟨b, hb⟩ h
  exact congrArg Fin.val this

theorem digitChar_ne_zero_char (d : Nat) (hlt : d < 10) (hd : d ≠ 0) :
    Nat.digitChar d ≠ '0' := by
  have key : ∀ x : Fin 10, x.val ≠ 0 → Nat.digitChar x.val ≠ '0' := by decide
  exact key ⟨d, hlt⟩ hd

theorem map_digitChar_inj : ∀ l1 l2 : List Nat, (∀ x ∈ l1, x < 10) → (∀ x ∈ l2, x < 10) →
    l1.map Nat.digitChar = l2.map Nat.digitChar → l1 = l2
  | [], [], _, _, _ => rfl
  | [], _ :: _, _, _, h => by simp at h
  | _ :: _, [], _, _, h => by simp at h
  | a :: l1, b :: l2, h1, h2, h => by
    simp only [List.map_cons, List.cons.injEq] at h
    rw [digitChar_inj_lt10 a b (h1 a (by simp)) (h2 b (by simp)) h.1,
      map_digitChar_inj l1 l2 (fun x hx => h1 x (by simp [hx]))
        (fun x hx => h2 x (by simp [hx])) h.2]

theorem natRepr_inj : ∀ {a b : Nat}, natRepr a = natRepr b → a = b := by
  have key : ∀ a b : Nat, a ≠ 0 → b ≠ 0 → natRepr a = natRepr b → a = b := by
    intro a b ha hb h
    have hd := congrArg String.data h
    rw [natRepr_pos_data ha, natRepr_pos_data hb] at hd
    have hmap := List.reverse_injective hd
    have hdig := map_digitChar_inj _ _
      (fun x hx => Nat.digits_lt_base (by norm_num) hx)
      (fun x hx => Nat.digits_lt_base (by norm_num) hx) hmap
    calc a = Nat.ofDigits 10 (Nat.digits 10 a) := (Nat.ofDigits_digits 10 a).symm
      _ = Nat.ofDigits 10 (Nat.digits 10 b) := by rw [hdig]
      _ = b := Nat.ofDigits_digits 10 b
  have zero_case : ∀ b : Nat, b ≠ 0 → natRepr 0 ≠ natRepr b := by
    intro b hb h
    have hd := congrArg String.data h
    rw [natRepr_pos_data hb] at hd
    have hd' : (Nat.digits 10 b).map Nat.digitChar = ['0'] := by
      have := congrArg List.reverse hd
      simpa [natRepr] using this.symm
    rcases hdig : Nat.digits 10 b with - | ⟨d, rest⟩
    · rw [hdig] at hd'; simp at hd'
    · rw [hdig] at hd'
      simp only [List.map_cons, List.cons.injEq, List.map_eq_nil_iff] at hd'
      have hrest : rest = [] := hd'.2
      have hlast : d ≠ 0 := by
        have hgl := Nat.getLast_digit_ne_zero 10 hb
        have hne : Nat.digits 10 b ≠ [] := Nat.digits_ne_nil_iff_ne_zero.mpr hb
        have h1 : (Nat.digits 10 b).getLast? = some d := by rw [hdig, hrest]; rfl
        have h2 := List.getLast?_eq_getLast (Nat.digits 10 b) hne
        rw [h1] at h2
        rw [Option.some.inj h2]
        exact hgl
      have hlt : d < 10 := Nat.digits_lt_base (by norm_num)
        (by rw [hdig]; exact List.mem_cons_self d rest)
      exact digitChar_ne_zero_char d hlt hlast hd'.1
  intro a b h
  by_cases ha : a = 0 <;> by_cases hb : b = 0
  · rw [ha, hb]
  · exact absurd (ha ▸ h) (zero_case b hb)
  · exact absurd (hb ▸ h.symm) (zero_case a ha)
  · exact key a b ha hb h

theorem natRepr_head_ne_zero {n : Nat} (hn : n ≠ 0) :
    ∃ c cs, (natRepr n).data = c :: cs ∧ c ≠ '0' := by
  have hne : Nat.digits 10 n ≠ [] := Nat.digits_ne_nil_iff_ne_zero.mpr hn
  have hsplit := (List.dropLast_append_getLast hne).symm
  refine ⟨Nat.digitChar ((Nat.digits 10 n).getLast hne),
    (((Nat.digits 10 n).dropLast).map Nat.digitChar).reverse, ?_, ?_⟩
  · rw [natRepr_pos_data hn]
    conv_lhs => rw [hsplit]
    simp
  · have hlast := Nat.getLast_digit_ne_zero 10 hn
    have hlt : (Nat.digits 10 n).getLast hne < 10 :=
      Nat.digits_lt_base (by norm_num) (List.getLast_mem hne)
    exact digitChar_ne_zero_char _ hlt hlast

theorem padZeros6_heads_ne {x y : List Char} {cx cy : Char} {xs ys : List Char}
    (_hx : x = cx :: xs) (hy : y = cy :: ys) (hcy : cy ≠ '0')
    (hlt : x.length < y.length) (hy6 : y.length ≤ 6) :
    padZeros6 x ≠ padZeros6 y := by
  intro h
  have hi : 6 - y.length < (List.replicate (6 - x.length) '0').length := by
    simp only [List.length_replicate]
    omega
  have hi6 : 6 - y.length < (padZeros6 x).length := by
    unfold padZeros6
    simp only [List.length_append, List.length_replicate]
    omega
  have hleft : (padZeros6 x)[6 - y.length] = '0' := by
    unfold padZeros6
    rw [List.getElem_append_left hi]
    exact List.getElem_replicate ..
  have hiy : (List.replicate (6 - y.length) '0').length ≤ 6 - y.length := by
    simp
  have hi6' : 6 - y.length < (padZeros6 y).length := by
    unfold padZeros6
    simp only [List.length_append, List.length_replicate]
    omega
  have hright : (padZeros6 y)[6 - y.length] = cy := by
    unfold padZeros6
    rw [List.getElem_append_right hiy]
    simp [hy]
  have : ('0' : Char) = cy := by
    rw [← hleft, ← hright]
    congr 1
  exact hcy this.symm

theorem padZeros6_inj {x y : List Char}
    (hx : ∃ c cs, x = c :: cs ∧ c ≠ '0') (hy : ∃ c cs, y = c :: cs ∧ c ≠ '0')
    (h : padZeros6 x = padZeros6 y) : x = y := by
  obtain ⟨cx, xs, hx1, hx2⟩ := hx
  obtain ⟨cy, ys, hy1, hy2⟩ := hy
  have hlen := congrArg List.length h
  unfold padZeros6 at hlen
  simp only [List.length_append, List.length_replicate] at hlen
  rcases Nat.lt_trichotomy x.length y.length with hl | hl | hl
  · have hy6 : y.length ≤ 6 := by omega
    exact absurd h (padZeros6_heads_ne hx1 hy1 hy2 hl hy6)
  · exact (List.append_inj h (by simp [hl])).2
  · have hx6 : x.length ≤ 6 := by omega
    exact absurd h.symm (padZeros6_heads_ne hy1 hx1 hx2 hl hx6)

theorem formatBlockId_inj {a b : Nat} (ha : a ≠ 0) (hb : b ≠ 0)
    (h : formatBlockId a = formatBlockId b) : a = b := by
  have hd := congrArg String.data h
  unfold formatBlockId at hd
  simp only [String.data_append, List.cons.injEq] at hd
  have hpad : padZeros6 (natRepr a).data = padZeros6 (natRepr b).data :=
    List.append_cancel_left hd
  have := padZeros6_inj (natRepr_head_ne_zero ha) (natRepr_head_ne_zero hb) hpad
  exact natRepr_inj (String.ext this)

theorem extractTxtGo_ids : ∀ (lines : List String) (counter : Nat) (f b : Bool) (ch : Nat),
    (extractTxtGo counter f b ch lines).map Block.id =
      (List.range' (counter + 1) (extractTxtGo counter f b ch lines).length).map formatBlockId
  | [], _, _, _, _ => rfl
  | line :: rest, counter, f, b, ch => by
    simp only [extractTxtGo]
    by_cases ht : (pyStrip line).data.isEmpty = true
    · rw [if_pos ht]
      exact extractTxtGo_ids rest counter f b ch
    · rw [if_neg ht]
      simp only [List.map_cons, List.length_cons, List.range']
      rw [extractTxtGo_ids rest (counter + 1)]

theorem extractDocxGo_ids : ∀ (paras : List Para) (counter : Nat) (f b : Bool) (ch idx : Nat),
    (extractDocxGo counter f b ch idx paras).map Block.id =
      (List.range' (counter + 1) (extractDocxGo counter f b ch idx paras).length).map
        formatBlockId
  | [], _, _, _, _, _ => rfl
  | p :: rest, counter, f, b, ch, idx => by
    simp only [extractDocxGo]
    by_cases ht : (pyStrip (paraText p)).data.isEmpty = true
    · rw [if_pos ht]
      exact extractDocxGo_ids rest counter f b ch (idx + 1)
    · rw [if_neg ht]
      simp only [List.map_cons, List.length_cons, List.range']
      rw [extractDocxGo_ids rest (counter + 1)]

theorem extractPdfLines_ids : ∀ (lines : List String) (counter : Nat) (f b : Bool)
    (ch pg : Nat),
    ((extractPdfLines counter f b ch pg lines).1.map Block.id =
      (List.range' (counter + 1) (extractPdfLines counter f b ch pg lines).1.length).map
        formatBlockId)
    ∧ (extractPdfLines counter f b ch pg lines).2.1 =
        counter + (extractPdfLines counter f b ch pg lines).1.length
  | [], _, _, _, _, _ => ⟨rfl, rfl⟩
  | line :: rest, counter, f, b, ch, pg => by
    simp only [extractPdfLines]
    by_cases ht : (pyStrip line).data.isEmpty = true
    · rw [if_pos ht]
      exact extractPdfLines_ids rest counter f b ch pg
    · rw [if_neg ht]
      have ih := extractPdfLines_ids rest (counter + 1)
        ((updateExtractState (detect_block_type (pyStrip line) none f b).1
          (detect_block_type (pyStrip line) none f b).2 f b ch).2.1)
        ((updateExtractState (detect_block_type (pyStrip line) none f b).1
          (detect_block_type (pyStrip line) none f b).2 f b ch).2.2.1)
        ((updateExtractState (detect_block_type (pyStrip line) none f b).1
          (detect_block_type (pyStrip line) none f b).2 f b ch).2.2.2) pg
    -- the recursive result is shared between both conjuncts
      refine ⟨?_, ?_⟩
      · simp only [List.map_cons, List.length_cons, List.range']
        rw [ih.1]
      · simp only [List.length_cons]
        rw [ih.2]
        omega

theorem extractPdfPages_ids : ∀ (pages : List String) (counter : Nat) (f b : Bool)
    (ch pg : Nat),
    (extractPdfPages counter f b ch pg pages).map Block.id =
      (List.range' (counter + 1) (extractPdfPages counter f b ch pg pages).length).map
        formatBlockId
  | [], _, _, _, _, _ => rfl
  | page :: rest, counter, f, b, ch, pg => by
    simp only [extractPdfPages, List.map_append, List.length_append]
    have hl := extractPdfLines_ids (pySplitNL page) counter f b ch pg
    have hp := extractPdfPages_ids rest
      (extractPdfLines counter f b ch pg (pySplitNL page)).2.1
      (extractPdfLines counter f b ch pg (pySplitNL page)).2.2.1
      (extractPdfLines counter f b ch pg (pySplitNL page)).2.2.2.1
      (extractPdfLines counter f b ch pg (pySplitNL page)).2.2.2.2 (pg + 1)
    rw [hl.1, hp, hl.2, ← List.map_append]
    congr 1
    have harr := List.range'_append (counter + 1)
      (extractPdfLines counter f b ch pg (pySplitNL page)).1.length
      (extractPdfPages (counter + (extractPdfLines counter f b ch pg (pySplitNL page)).1.length)
        (extractPdfLines counter f b ch pg (pySplitNL page)).2.2.1
        (extractPdfLines counter f b ch pg (pySplitNL page)).2.2.2.1
        (extractPdfLines counter f b ch pg (pySplitNL page)).2.2.2.2 (pg + 1) rest).length 1
    simpa [Nat.one_mul, Nat.add_comm, Nat.add_assoc, Nat.add_left_comm] using harr

theorem formatBlockId_range'_nodup (s n : Nat) (hs : s ≠ 0) :
    ((List.range' s n).map formatBlockId).Nodup := by
  refine List.Nodup.map_on ?_ (List.nodup_range' s n 1 Nat.one_pos)
  intro x hx y hy hxy
  obtain ⟨i, _, rfl⟩ := List.mem_range'.mp hx
  obtain ⟨j, _, rfl⟩ := List.mem_range'.mp hy
  exact formatBlockId_inj (by omega) (by omega) hxy

/-- C10.  In every extraction run — txt, docx and pdf alike — the i-th
emitted block (1-based, document order) has id `formatBlockId i`, i.e. `b_`
followed by `i` zero-padded to six digits; the counter restarts at 0 for
every extract call (each extractor is a pure function of one document), so
ids are per-document and pairwise distinct within one artifact. -/
theorem block_ids_sequential (lines : List String) (paras : List Para)
    (pages : List String) :
    ((extract_txt lines).map Block.id =
        (List.range' 1 (extract_txt lines).length).map formatBlockId
      ∧ ((extract_txt lines).map Block.id).Nodup)
    ∧ ((extract_docx paras).map Block.id =
        (List.range' 1 (extract_docx paras).length).map formatBlockId
      ∧ ((extract_docx paras).map Block.id).Nodup)
    ∧ ((extract_pdf pages).map Block.id =
        (List.range' 1 (extract_pdf pages).length).map formatBlockId
      ∧ ((extract_pdf pages).map Block.id).Nodup) := by
  have ht : (extract_txt lines).map Block.id =
      (List.range' 1 (extract_txt lines).length).map formatBlockId :=
    extractTxtGo_ids lines 0 true false 0
  have hd : (extract_docx paras).map Block.id =
      (List.range' 1 (extract_docx paras).length).map formatBlockId :=
    extractDocxGo_ids paras 0 true false 0 0
  have hp : (extract_pdf pages).map Block.id =
      (List.range' 1 (extract_pdf pages).length).map formatBlockId :=
    extractPdfPages_ids pages 0 true false 0 1
  refine ⟨⟨ht, ?_⟩, ⟨hd, ?_⟩, ⟨hp, ?_⟩⟩
  · rw [ht]; exact formatBlockId_range'_nodup 1 _ one_ne_zero
  · rw [hd]; exact formatBlockId_range'_nodup 1 _ one_ne_zero
  · rw [hp]; exact formatBlockId_range'_nodup 1 _ one_ne_zero

/-! ## Chapter numbering (C3) -/

/-- Python dict lookup `d.get(k)` on insertion-ordered entries. -/
def lookupJ : List (String × Json) → String → Option Json
  | [], _ => none
  | (k', v) :: rest, k => if k' = k then some v else lookupJ rest k

theorem lookupJ_dictSet (m : List (String × Json)) (k : String) (v : Json) :
    lookupJ (dictSet m k v) k = some v := by
  induction m with
  | nil => simp [dictSet, lookupJ]
  | cons kv rest ih =>
    obtain ⟨k', v'⟩ := kv
    by_cases h : k' = k
    · simp [dictSet, lookupJ, h]
    · simp [dictSet, lookupJ, h, ih]

/-- The `chapter_number` meta entries of the `chapter_heading` blocks, in
document order. -/
def chapterNumberList : List Block → List (Option Json)
  | [] => []
  | blk :: rest =>
    if blk.type = "chapter_heading" then
      lookupJ blk.meta "chapter_number" :: chapterNumberList rest
    else chapterNumberList rest

theorem chapterNumberList_eq_filter_map (bs : List Block) :
    chapterNumberList bs =
      (bs.filter (fun blk => blk.type = "chapter_heading")).map
        (fun blk => lookupJ blk.meta "chapter_number") := by
  induction bs with
  | nil => rfl
  | cons blk rest ih =>
    by_cases h : blk.type = "chapter_heading"
    · simp [chapterNumberList, List.filter_cons, h, ih]
    · simp [chapterNumberList, List.filter_cons, h, ih]

theorem extractTxtGo_chapter_numbers : ∀ (lines : List String) (counter : Nat)
    (f b : Bool) (ch : Nat),
    chapterNumberList (extractTxtGo counter f b ch lines) =
      (List.range' (ch + 1) (chapterNumberList (extractTxtGo counter f b ch lines)).length).map
        (fun n => some (Json.num (Int.ofNat n)))
  | [], _, _, _, _ => rfl
  | line :: rest, counter, f, b, ch => by
    simp only [extractTxtGo]
    by_cases ht : (pyStrip line).data.isEmpty = true
    · rw [if_pos ht]
      exact extractTxtGo_chapter_numbers rest counter f b ch
    · rw [if_neg ht]
      by_cases hch : (detect_block_type (pyStrip line) none f b).1 = "chapter_heading"
      · simp only [chapterNumberList, hch, eq_self_iff_true, if_true]
        have hmeta : (updateExtractState "chapter_heading"
            (detect_block_type (pyStrip line) none f b).2 f b ch).1 =
            dictSet (detect_block_type (pyStrip line) none f b).2 "chapter_number"
              (Json.num (Int.ofNat (ch + 1))) := by
          simp [updateExtractState]
        have hst : (updateExtractState "chapter_heading"
            (detect_block_type (pyStrip line) none f b).2 f b ch).2.2.2 = ch + 1 := by
          simp [updateExtractState]
        rw [hmeta, hst, lookupJ_dictSet]
        simp only [List.length_cons, List.range', List.map_cons]
        refine congrArg₂ List.cons rfl ?_
        exact extractTxtGo_chapter_numbers rest (counter + 1)
          ((updateExtractState "chapter_heading"
            (detect_block_type (pyStrip line) none f b).2 f b ch).2.1)
          ((updateExtractState "chapter_heading"
            (detect_block_type (pyStrip line) none f b).2 f b ch).2.2.1)
          (ch + 1)
      · simp only [chapterNumberList, hch, if_neg hch]
        have hst : (updateExtractState (detect_block_type (pyStrip line) none f b).1
            (detect_block_type (pyStrip line) none f b).2 f b ch).2.2.2 = ch := by
          simp [updateExtractState, hch]
        rw [hst]
        exact extractTxtGo_chapter_numbers rest (counter + 1)
          ((updateExtractState (detect_block_type (pyStrip line) none f b).1
            (detect_block_type (pyStrip line) none f b).2 f b ch).2.1)
          ((updateExtractState (detect_block_type (pyStrip line) none f b).1
            (detect_block_type (pyStrip line) none f b).2 f b ch).2.2.1)
          ch

/-- C3 (amended).  In txt extraction (the classification and state-update
code is shared verbatim by the docx and pdf loops), the k-th
`chapter_heading` block, in document order, carries
`meta.chapter_number = k`: the emitted chapter number is always the running
chapter counter — the first embedded integer that `_detect_block_type`
places in the meta is overwritten by the extraction loop before the block
is emitted. -/
theorem chapter_numbers_are_running_counter (lines : List String) :
    ((extract_txt lines).filter (fun blk => blk.type = "chapter_heading")).map
        (fun blk => lookupJ blk.meta "chapter_number") =
      (List.range' 1
          (((extract_txt lines).filter
            (fun blk => blk.type = "chapter_heading")).length)).map
        (fun n => some (Json.num (Int.ofNat n))) := by
  have h := extractTxtGo_chapter_numbers lines 0 true false 0
  rw [chapterNumberList_eq_filter_map] at h
  simpa [chapterNumberList_eq_filter_map] using h

/-- C3 counterexample: the heading "Chapter 7" appearing as the first
chapter is emitted with `meta.chapter_number = 1` (the running counter), not
7 (the first embedded integer), refuting the claim as stated. -/
theorem chapter_number_counterexample :
    (extract_txt ["Chapter 7"]).map
        (fun blk => (blk.type, lookupJ blk.meta "chapter_number")) =
      [("chapter_heading", some (Json.num 1))]
    ∧ Json.num 1 ≠ Json.num 7 := by
  constructor
  · rfl
  · intro h
    simp at h

/-! ## Warning detection (`warning_detector.py`) -/

/-- `_get_block_text`: the `text` key if present, else the concatenated span
texts, else the empty string. -/
def getBlockText (b : Block) : String :=
  match b.text with
  | some t => t
  | none =>
    match b.spans with
    | some ss => joinAll (ss.map Span.text)
    | none => ""

/-- `text[:100]`. -/
def take100 (s : String) : String := ⟨s.data.take 100⟩

def IMAGE_KEYWORDS : List String := ["[image]", "[figure]", "[photo]", "[illustration]"]

/-- `any(kw in text_lower for kw in image_keywords)`. -/
def imageHit (t : String) : Bool :=
  IMAGE_KEYWORDS.any (fun kw => containsSub kw (pyLower t))

/-- The warning dict `_detect_images` appends for block index `i`. -/
def imageWarning (i : Nat) (t : String) : Json :=
  .obj [("code", .str "DETECTED_IMAGES"), ("severity", .str "error"),
        ("message", .str "Image placeholder detected in text"),
        ("block_index", .num i), ("context", .str (take100 t))]

/-- The `for i, block in enumerate(blocks)` loop of `_detect_images`. -/
def detectImagesGo (i : Nat) : List Block → List Json
  | [] => []
  | b :: rest =>
    if imageHit (getBlockText b) then
      imageWarning i (getBlockText b) :: detectImagesGo (i + 1) rest
    else detectImagesGo (i + 1) rest

/-- `_detect_images` (the `source_meta` argument is unused by the source). -/
def detect_images (blocks : List Block) : List Json := detectImagesGo 0 blocks

/-- `text.count('\t') >= 3 or text.count('|') >= 3`. -/
def tableHit (t : String) : Bool :=
  decide (3 ≤ t.data.count '\t') || decide (3 ≤ t.data.count '|')

/-- The warning dict `_detect_tables` appends for block index `i`. -/
def tableWarning (i : Nat) (t : String) : Json :=
  .obj [("code", .str "DETECTED_TABLES"), ("severity", .str "error"),
        ("message", .str "Table-like structure detected"),
        ("block_index", .num i), ("context", .str (take100 t))]

def detectTablesGo (i : Nat) : List Block → List Json
  | [] => []
  | b :: rest =>
    if tableHit (getBlockText b) then
      tableWarning i (getBlockText b) :: detectTablesGo (i + 1) rest
    else detectTablesGo (i + 1) rest

/-- `_detect_tables`. -/
def detect_tables (blocks : List Block) : List Json := detectTablesGo 0 blocks

/-- `_detect_low_chapter_confidence`: one warning (severity `warning`) when
zero chapter blocks, one warning (severity `info`) when fewer than three
chapters in a document of more than 100 blocks, nothing otherwise.  The
`source_meta` argument is unused by the source. -/
def detect_low_chapter_confidence (blocks : List Block) : List Json :=
  if (blocks.filter (fun blk => blk.type = "chapter_heading")).length = 0 then
    [.obj [("code", .str "LOW_CHAPTER_CONFIDENCE"), ("severity", .str "warning"),
           ("message", .str "No chapters detected in manuscript"),
           ("detected_chapters", .num 0)]]
  else if (blocks.filter (fun blk => blk.type = "chapter_heading")).length < 3
      ∧ blocks.length > 100 then
    [.obj [("code", .str "LOW_CHAPTER_CONFIDENCE"), ("severity", .str "info"),
           ("message", .str "Very few chapters detected in long manuscript"),
           ("detected_chapters",
             .num ((blocks.filter (fun blk => blk.type = "chapter_heading")).length)),
           ("total_blocks", .num blocks.length)]]
  else []

/-- Lookup of a key in a `Json` object (none on other constructors). -/
def jsonGet (j : Json) (k : String) : Option Json :=
  match j with
  | .obj l => lookupJ l k
  | _ => none

theorem detectImagesGo_length : ∀ (blocks : List Block) (i : Nat),
    (detectImagesGo i blocks).length =
      (blocks.filter (fun b => imageHit (getBlockText b))).length
  | [], _ => rfl
  | b :: rest, i => by
    by_cases h : imageHit (getBlockText b) = true
    · simp [detectImagesGo, h, List.filter_cons, detectImagesGo_length rest (i + 1)]
    · simp [detectImagesGo, h, List.filter_cons, detectImagesGo_length rest (i + 1)]

theorem detectImagesGo_mem : ∀ (blocks : List Block) (i : Nat) (w : Json),
    w ∈ detectImagesGo i blocks → ∃ j t, w = imageWarning j t
  | [], _, _, h => absurd h (List.not_mem_nil _)
  | b :: rest, i, w, h => by
    by_cases hb : imageHit (getBlockText b) = true
    · rw [detectImagesGo, if_pos hb] at h
      rcases List.mem_cons.mp h with rfl | h'
      · exact ⟨i, getBlockText b, rfl⟩
      · exact detectImagesGo_mem rest (i + 1) w h'
    · rw [detectImagesGo, if_neg hb] at h
      exact detectImagesGo_mem rest (i + 1) w h

theorem detectTablesGo_length : ∀ (blocks : List Block) (i : Nat),
    (detectTablesGo i blocks).length =
      (blocks.filter (fun b => tableHit (getBlockText b))).length
  | [], _ => rfl
  | b :: rest, i => by
    by_cases h : tableHit (getBlockText b) = true
    · simp [detectTablesGo, h, List.filter_cons, detectTablesGo_length rest (i + 1)]
    · simp [detectTablesGo, h, List.filter_cons, detectTablesGo_length rest (i + 1)]

theorem detectTablesGo_mem : ∀ (blocks : List Block) (i : Nat) (w : Json),
    w ∈ detectTablesGo i blocks → ∃ j t, w = tableWarning j t
  | [], _, _, h => absurd h (List.not_mem_nil _)
  | b :: rest, i, w, h => by
    by_cases hb : tableHit (getBlockText b) = true
    · rw [detectTablesGo, if_pos hb] at h
      rcases List.mem_cons.mp h with rfl | h'
      · exact ⟨i, getBlockText b, rfl⟩
      · exact detectTablesGo_mem rest (i + 1) w h'
    · rw [detectTablesGo, if_neg hb] at h
      exact detectTablesGo_mem rest (i + 1) w h

/-- C4 (amended).  The image and table detectors emit one warning record per
offending block — each carrying `code`, severity `error` (legacy naming),
`block_index` and `context`, not an aggregate count — so the number of
records equals the number of offending blocks; a detector that finds zero
matches still emits nothing. -/
theorem image_table_warnings_per_block (blocks : List Block) :
    ((detect_images blocks).length =
        (blocks.filter (fun b => imageHit (getBlockText b))).length
      ∧ ((∀ b ∈ blocks, imageHit (getBlockText b) = false) → detect_images blocks = [])
      ∧ ∀ w ∈ detect_images blocks, ∃ j t, w = imageWarning j t)
    ∧ ((detect_tables blocks).length =
        (blocks.filter (fun b => tableHit (getBlockText b))).length
      ∧ ((∀ b ∈ blocks, tableHit (getBlockText b) = false) → detect_tables blocks = [])
      ∧ ∀ w ∈ detect_tables blocks, ∃ j t, w = tableWarning j t) := by
  refine ⟨⟨detectImagesGo_length blocks 0, ?_, detectImagesGo_mem blocks 0⟩,
    ⟨detectTablesGo_length blocks 0, ?_, detectTablesGo_mem blocks 0⟩⟩
  · intro hall
    have hlen := detectImagesGo_length blocks 0
    rw [List.filter_eq_nil_iff.mpr (by simpa using hall)] at hlen
    exact List.length_eq_zero.mp hlen
  · intro hall
    have hlen := detectTablesGo_length blocks 0
    rw [List.filter_eq_nil_iff.mpr (by simpa using hall)] at hlen
    exact List.length_eq_zero.mp hlen

/-- C4 witness: a one-block document without image/table patterns yields no
records at all. -/
theorem image_table_warnings_per_block_witness :
    detect_images [⟨"b_000001", "paragraph", some "plain prose", none, [], []⟩] = [] :=
  (image_table_warnings_per_block
    [⟨"b_000001", "paragraph", some "plain prose", none, [], []⟩]).1.2.1 (by decide)

/-- C4 counterexample: a document whose two blocks both contain image
placeholders yields two `DETECTED_IMAGES` records — one per offending block —
not the single aggregate record the claim asserts. -/
theorem images_aggregate_counterexample :
    (detect_images [⟨"b_000001", "paragraph", some "see [image] one", none, [], []⟩,
        ⟨"b_000002", "paragraph", some "and [figure] two", none, [], []⟩]).length = 2
    ∧ ¬ ((detect_images [⟨"b_000001", "paragraph", some "see [image] one", none, [], []⟩,
        ⟨"b_000002", "paragraph", some "and [figure] two", none, [], []⟩]).length ≤ 1) := by
  constructor
  · rfl
  · decide

/-- C5 (amended).  Whenever a document contains zero `chapter_heading`
blocks — regardless of how many blocks it has — the low-chapter-confidence
detector emits exactly one `LOW_CHAPTER_CONFIDENCE` record, and its severity
is the legacy `warning` (not `medium`); there is no 50-block threshold in
the zero-chapter branch. -/
theorem low_chapter_confidence_zero_chapters (blocks : List Block)
    (h : (blocks.filter (fun blk => blk.type = "chapter_heading")).length = 0) :
    detect_low_chapter_confidence blocks =
      [.obj [("code", .str "LOW_CHAPTER_CONFIDENCE"), ("severity", .str "warning"),
             ("message", .str "No chapters detected in manuscript"),
             ("detected_chapters", .num 0)]] := by
  unfold detect_low_chapter_confidence
  rw [if_pos h]

/-- C5 witness: a document of a single paragraph block (no chapters). -/
theorem low_chapter_confidence_zero_chapters_witness :
    detect_low_chapter_confidence [⟨"b_000001", "paragraph", some "x", none, [], []⟩] =
      [.obj [("code", .str "LOW_CHAPTER_CONFIDENCE"), ("severity", .str "warning"),
             ("message", .str "No chapters detected in manuscript"),
             ("detected_chapters", .num 0)]] :=
  low_chapter_confidence_zero_chapters
    [⟨"b_000001", "paragraph", some "x", none, [], []⟩] (by rfl)

/-- C5 counterexample: with zero chapters and a single block (at most 50),
the detector still emits one `LOW_CHAPTER_CONFIDENCE` warning (the claim
says none), and with 60 blocks the emitted record's severity is the string
"warning", not "medium". -/
theorem low_chapter_confidence_counterexample :
    (detect_low_chapter_confidence
        [⟨"b_000001", "paragraph", some "x", none, [], []⟩]).length = 1
    ∧ (detect_low_chapter_confidence
        (List.replicate 60 (⟨"b_000001", "paragraph", some "x", none, [], []⟩ : Block))).map
        (fun w => jsonGet w "severity") = [some (.str "warning")]
    ∧ ("warning" : String) ≠ "medium" := by
  refine ⟨by rfl, by rfl, by decide⟩

/-! ## Artifact assembly (`artifact_builder.py`) -/

/-- `counts[k] = counts.get(k, 0) + 1` on an insertion-ordered dict. -/
def dictIncr : List (String × Nat) → String → List (String × Nat)
  | [], k => [(k, 1)]
  | (k', n) :: rest, k =>
    if k' = k then (k, n + 1) :: rest else (k', n) :: dictIncr rest k

/-- `_count_block_types`: occurrences of each `block['type']`. -/
def count_block_types (blocks : List Block) : List (String × Nat) :=
  blocks.foldl (fun acc b => dictIncr acc b.type) []

/-- `warning.get('severity', 'info')`.  (Detector records always carry a
string severity; a non-string value cannot occur in this pipeline.) -/
def warningSeverity (w : Json) : String :=
  match jsonGet w "severity" with
  | some (.str s) => s
  | _ => "info"

/-- `warning['code']` (always a string in detector records). -/
def warningCode (w : Json) : String :=
  match jsonGet w "code" with
  | some (.str s) => s
  | _ => ""

/-- `_count_by_severity`, starting from the three zeroed buckets. -/
def count_by_severity (warnings : List Json) : List (String × Nat) :=
  warnings.foldl (fun acc w => dictIncr acc (warningSeverity w))
    [("error", 0), ("warning", 0), ("info", 0)]

/-- `_count_by_code`. -/
def count_by_code (warnings : List Json) : List (String × Nat) :=
  warnings.foldl (fun acc w => dictIncr acc (warningCode w)) []

def spanToJson (s : Span) : Json :=
  .obj [("text", .str s.text), ("marks", .arr (s.marks.map Json.str))]

/-- The block dict as JSON: conditional keys exactly as the extractor adds
them. -/
def blockToJson (b : Block) : Json :=
  .obj ([("id", .str b.id), ("type", .str b.type)] ++
    (match b.text with
      | some t => [("text", .str t)]
      | none => []) ++
    (match b.spans with
      | some ss => [("spans", .arr (ss.map spanToJson))]
      | none => []) ++
    (if b.meta.isEmpty then [] else [("meta", .obj b.meta)]) ++
    (if b.sourceLoc.isEmpty then [] else [("source_loc", .obj b.sourceLoc)]))

/-- `source_meta.get(k)` (default `None`). -/
def sourceMetaGet (sm : List (String × Json)) (k : String) : Json :=
  match lookupJ sm k with
  | some v => v
  | none => .null

/-- `source_meta.get(k, d)`. -/
def sourceMetaGetD (sm : List (String × Json)) (k : String) (d : Json) : Json :=
  match lookupJ sm k with
  | some v => v
  | none => d

/-- `ArtifactBuilder.build`: the complete artifact envelope.  `run_id`
(`uuid4()`) and `produced_at` (`datetime.now`) are environment inputs and
appear as parameters. -/
def ArtifactBuilder_build (worker_name worker_version run_id produced_at : String)
    (blocks : List Block) (warnings : List Json) (source_meta : List (String × Json))
    (service_id : String) (parent_artifacts : Option (List Json)) : Json :=
  .obj [
    ("schema_version", .str "1.0"),
    ("artifact_type", .str "manuscript"),
    ("artifact_version", .str "1"),
    ("source", .obj [
      ("original_filename", sourceMetaGet source_meta "original_filename"),
      ("original_format", sourceMetaGet source_meta "original_format"),
      ("service_id", .str service_id),
      ("uploaded_at", .null),
      ("file_size_bytes", .null),
      ("file_hash", .null)]),
    ("processing", .obj [
      ("worker_name", .str worker_name),
      ("worker_version", .str worker_version),
      ("run_id", .str run_id),
      ("started_at", .str produced_at),
      ("completed_at", .str produced_at),
      ("duration_seconds", .num 0)]),
    ("content", .obj [
      ("blocks", .arr (blocks.map blockToJson)),
      ("total_blocks", .num blocks.length),
      ("block_type_counts", .obj ((count_block_types blocks).map
        (fun p => (p.1, Json.num (Int.ofNat p.2)))))]),
    ("analysis", .obj [
      ("warnings", .arr warnings),
      ("total_warnings", .num warnings.length),
      ("warnings_by_severity", .obj ((count_by_severity warnings).map
        (fun p => (p.1, Json.num (Int.ofNat p.2))))),
      ("warnings_by_code", .obj ((count_by_code warnings).map
        (fun p => (p.1, Json.num (Int.ofNat p.2)))))]),
    ("meta", .obj [
      ("detected_chapters", sourceMetaGetD source_meta "detected_chapters" (.num 0)),
      ("has_front_matter", sourceMetaGetD source_meta "has_front_matter" (.bool false)),
      ("has_back_matter", sourceMetaGetD source_meta "has_back_matter" (.bool false)),
      ("total_paragraphs", sourceMetaGet source_meta "total_paragraphs"),
      ("total_pages", sourceMetaGet source_meta "total_pages"),
      ("total_lines", sourceMetaGet source_meta "total_lines")]),
    ("parent_artifacts", .arr (match parent_artifacts with
      | some l => l
      | none => []))]

/-- The keys of a JSON object. -/
def objKeys : Json → List String
  | .obj l => l.map Prod.fst
  | _ => []

/-- Count stored under `k` (0 when absent). -/
def getCount (l : List (String × Nat)) (k : String) : Nat :=
  match l with
  | [] => 0
  | (k', n) :: rest => if k' = k then n else getCount rest k

theorem getCount_dictIncr (l : List (String × Nat)) (k t : String) :
    getCount (dictIncr l k) t = getCount l t + (if k = t then 1 else 0) := by
  induction l with
  | nil =>
    by_cases h : k = t
    · simp [dictIncr, getCount, h]
    · simp [dictIncr, getCount, h]
  | cons kv rest ih =>
    obtain ⟨k', n⟩ := kv
    by_cases h1 : k' = k
    · subst h1
      by_cases h2 : k' = t
      · simp [dictIncr, getCount, h2]
      · simp [dictIncr, getCount, h2]
    · by_cases h2 : k' = t
      · subst h2
        have hkt : ¬ (k = k') := fun hc => h1 hc.symm
        simp [dictIncr, getCount, h1, hkt]
      · simp [dictIncr, getCount, h1, h2, ih]

theorem getCount_count_block_types_aux : ∀ (blocks : List Block)
    (acc : List (String × Nat)) (t : String),
    getCount (blocks.foldl (fun acc b => dictIncr acc b.type) acc) t =
      getCount acc t + (blocks.filter (fun b => b.type = t)).length
  | [], _, _ => by simp
  | b :: rest, acc, t => by
    simp only [List.foldl_cons, List.filter_cons]
    rw [getCount_count_block_types_aux rest (dictIncr acc b.type) t, getCount_dictIncr]
    by_cases h : b.type = t
    · simp [h]
      omega
    · simp [h]

/-- Per-type counts computed by `_count_block_types`. -/
theorem getCount_count_block_types (blocks : List Block) (t : String) :
    getCount (count_block_types blocks) t = (blocks.filter (fun b => b.type = t)).length := by
  have := getCount_count_block_types_aux blocks [] t
  simpa [count_block_types, getCount] using this

/-- C6 (amended).  The assembled artifact's `content` carries
`total_blocks` equal to the length of the block sequence and
`block_type_counts` mapping each block type to its number of occurrences
(so the `chapter_heading` entry counts the chapter-heading blocks); no
`word_count` statistic (and no `stats` object) is computed anywhere in the
artifact. -/
theorem builder_derived_stats (worker_name worker_version run_id produced_at : String)
    (blocks : List Block) (warnings : List Json) (source_meta : List (String × Json))
    (service_id : String) (parent_artifacts : Option (List Json)) :
    ((jsonGet (ArtifactBuilder_build worker_name worker_version run_id produced_at
        blocks warnings source_meta service_id parent_artifacts) "content").bind
        (fun c => jsonGet c "total_blocks") = some (.num blocks.length))
    ∧ ((jsonGet (ArtifactBuilder_build worker_name worker_version run_id produced_at
        blocks warnings source_meta service_id parent_artifacts) "content").bind
        (fun c => jsonGet c "block_type_counts") =
        some (.obj ((count_block_types blocks).map
          (fun p => (p.1, Json.num (Int.ofNat p.2))))))
    ∧ (∀ t, getCount (count_block_types blocks) t =
        (blocks.filter (fun b => b.type = t)).length)
    ∧ ((jsonGet (ArtifactBuilder_build worker_name worker_version run_id produced_at
        blocks warnings source_meta service_id parent_artifacts) "content").bind
        (fun c => jsonGet c "word_count") = none)
    ∧ ((jsonGet (ArtifactBuilder_build worker_name worker_version run_id produced_at
        blocks warnings source_meta service_id parent_artifacts) "content").bind
        (fun c => jsonGet c "stats") = none) :=
  ⟨rfl, rfl, getCount_count_block_types blocks, rfl, rfl⟩

/-- C6 counterexample: for a concrete one-block build, the `content` object
holds exactly the keys `blocks`, `total_blocks`, `block_type_counts` — there
is no `word_count` (the block's text "hello world" would have word count 2)
and no `stats`/`chapter_count` entry, refuting the claim as stated. -/
theorem builder_no_word_count_counterexample :
    ((jsonGet (ArtifactBuilder_build "w" "1.0" "rid" "ts"
        [⟨"b_000001", "paragraph", some "hello world", none, [], []⟩] [] [] "svc" none)
      "content").map
        (fun c => (objKeys c, jsonGet c "word_count", jsonGet c "chapter_count"))) =
      some (["blocks", "total_blocks", "block_type_counts"], none, none) := by
  rfl

/-! ## Block content invariant (C7) -/

theorem string_empty_append (s : String) : "" ++ s = s := by
  cases s
  rfl

theorem extract_spans_concat : ∀ runs : List Run,
    joinAll ((extract_spans_from_runs runs).map Span.text) = joinAll (runs.map Run.text)
  | [] => rfl
  | r :: rest => by
    by_cases h : r.text.data.isEmpty = true
    · have hempty : r.text = "" := String.ext (List.isEmpty_iff.mp h)
      rw [extract_spans_from_runs, if_pos h, extract_spans_concat rest]
      simp [joinAll, hempty, string_empty_append]
    · rw [extract_spans_from_runs, if_neg h]
      simp only [List.map_cons, joinAll]
      rw [extract_spans_concat rest]

/-- Exactly one of `text`/`spans` is set on a block. -/
def exactlyOneContent (b : Block) : Prop :=
  (b.text.isSome = true ∧ b.spans = none) ∨ (b.text = none ∧ b.spans.isSome = true)

theorem blockContent_cases (spans : List Span) (t : String) :
    (blockContent spans t = (some t, none))
    ∨ (blockContent spans t = (none, some spans) ∧ spans ≠ []) := by
  match spans with
  | [] => exact Or.inl rfl
  | [s] =>
    by_cases h : s.marks.isEmpty = true
    · exact Or.inl (by simp [blockContent, h])
    · exact Or.inr ⟨by simp [blockContent, h], by simp⟩
  | s1 :: s2 :: ss => exact Or.inr ⟨rfl, by simp⟩

theorem extractDocxGo_content_invariant : ∀ (paras : List Para) (counter : Nat)
    (f b : Bool) (ch idx : Nat) (blk : Block),
    blk ∈ extractDocxGo counter f b ch idx paras →
    exactlyOneContent blk
    ∧ ∀ ss, blk.spans = some ss → ss ≠ []
      ∧ ∃ p ∈ paras, joinAll (ss.map Span.text) = paraText p
        ∧ (pyStrip (paraText p)).data ≠ []
  | [], _, _, _, _, _, _, hmem => absurd hmem (List.not_mem_nil _)
  | p :: rest, counter, f, b, ch, idx, blk, hmem => by
    rw [extractDocxGo] at hmem
    by_cases ht : (pyStrip (paraText p)).data.isEmpty = true
    · rw [if_pos ht] at hmem
      have ih := extractDocxGo_content_invariant rest counter f b ch (idx + 1) blk hmem
      exact ⟨ih.1, fun ss hss =>
        ⟨(ih.2 ss hss).1, by
          obtain ⟨q, hq, hrest⟩ := (ih.2 ss hss).2
          exact ⟨q, List.mem_cons_of_mem p hq, hrest⟩⟩⟩
    · rw [if_neg ht] at hmem
      rcases List.mem_cons.mp hmem with rfl | hmem'
      · rcases blockContent_cases (extract_spans_from_runs p.runs) (pyStrip (paraText p))
          with hc | ⟨hc, hne⟩
        · refine ⟨Or.inl ?_, fun ss hss => ?_⟩
          · simp [exactlyOneContent, hc]
          · exfalso
            simp only [hc] at hss
            exact Option.noConfusion hss
        · refine ⟨Or.inr ?_, fun ss hss => ?_⟩
          · simp [exactlyOneContent, hc]
          · have hss' : extract_spans_from_runs p.runs = ss := by
              simp only [hc] at hss
              exact Option.some.inj hss
            subst hss'
            refine ⟨hne, p, List.mem_cons_self p rest, extract_spans_concat p.runs, ?_⟩
            intro hnil
            rw [hnil] at ht
            exact ht rfl
      · have ih := extractDocxGo_content_invariant rest (counter + 1) _ _ _ (idx + 1) blk hmem'
        exact ⟨ih.1, fun ss hss =>
          ⟨(ih.2 ss hss).1, by
            obtain ⟨q, hq, hrest⟩ := (ih.2 ss hss).2
            exact ⟨q, List.mem_cons_of_mem p hq, hrest⟩⟩⟩

/-- C7 (amended).  Every block produced by the DOCX extractor has exactly
one of `text`/`spans`; when `spans` is present it is non-empty and its span
texts concatenate, in order, to the source paragraph's raw (un-trimmed)
text — a non-blank paragraph whose trim is the block's logical text.  (The
concatenation equals the trimmed text only when the paragraph carries no
leading/trailing whitespace.) -/
theorem docx_block_content_invariant (paras : List Para) (blk : Block)
    (hmem : blk ∈ extract_docx paras) :
    exactlyOneContent blk
    ∧ ∀ ss, blk.spans = some ss → ss ≠ []
      ∧ ∃ p ∈ paras, joinAll (ss.map Span.text) = paraText p
        ∧ (pyStrip (paraText p)).data ≠ [] :=
  extractDocxGo_content_invariant paras 0 true false 0 0 blk hmem

/-- C7 witness: a two-run paragraph (bold then plain) produces one spans
block whose concatenation is the paragraph text. -/
theorem docx_block_content_invariant_witness :
    exactlyOneContent ⟨"b_000001", "front_matter_dedication", none,
        some [⟨"Bold", ["bold"]⟩, ⟨" tail", []⟩], [],
        [("doc_paragraph_index", Json.num 0)]⟩
    ∧ joinAll ([⟨"Bold", ["bold"]⟩, ⟨" tail", []⟩].map Span.text) =
        paraText ⟨[⟨"Bold", false, true, false, none⟩, ⟨" tail", false, false, false, none⟩],
          none⟩ := by
  have hx : extract_docx
      [⟨[⟨"Bold", false, true, false, none⟩, ⟨" tail", false, false, false, none⟩], none⟩] =
      [⟨"b_000001", "front_matter_dedication", none,
        some [⟨"Bold", ["bold"]⟩, ⟨" tail", []⟩], [],
        [("doc_paragraph_index", Json.num 0)]⟩] := by rfl
  have h := docx_block_content_invariant
    [⟨[⟨"Bold", false, true, false, none⟩, ⟨" tail", false, false, false, none⟩], none⟩]
    ⟨"b_000001", "front_matter_dedication", none,
      some [⟨"Bold", ["bold"]⟩, ⟨" tail", []⟩], [], [("doc_paragraph_index", Json.num 0)]⟩
    (by rw [hx]; exact List.mem_cons_self _ _)
  refine ⟨h.1, ?_⟩
  rfl

/-- C7 counterexample: a paragraph with a single bold run " hi" (leading
whitespace) is emitted as a spans block whose concatenated span text is
" hi", while the trimmed paragraph text is "hi": the concatenation equals
the raw paragraph text, not the trimmed text the claim asserts. -/
theorem spans_concat_counterexample :
    (extract_docx [⟨[⟨" hi", false, true, false, none⟩], none⟩]).map
        (fun blk => (blk.spans.map (fun ss => joinAll (ss.map Span.text)), blk.text)) =
      [(some " hi", none)]
    ∧ pyStrip (paraText ⟨[⟨" hi", false, true, false, none⟩], none⟩) = "hi"
    ∧ (" hi" : String) ≠ "hi" := by
  refine ⟨by rfl, by rfl, by decide⟩

/-! ## Lineage validation (`artifact_lineage.py`) -/

/-- `d.get(k)` (Python returns `None` when absent). -/
def jGetD (j : Json) (k : String) : Json :=
  match jsonGet j k with
  | some v => v
  | none => .null

/-- The `"sha256:..."` string `compute_artifact_hash` returns under the
default algorithm. -/
def sha256HashOf (lib : HashLib) (a : Json) : String :=
  "sha256" ++ ":" ++ lib.sha256 (encodeUtf8 (dumps a))

theorem compute_sha256_eq (lib : HashLib) (a : Json) :
    compute_artifact_hash lib a "sha256" = .ok (sha256HashOf lib a) := by
  simp [compute_artifact_hash, sha256HashOf]

/-- One mismatch record of `validate_lineage_integrity`. -/
def mismatchEntry (i : Nat) (declared : Json) (actual_hash : String) : Json :=
  .obj [("parent_index", .num i),
        ("parent_key", jGetD declared "artifact_key"),
        ("declared_hash", jGetD declared "artifact_hash"),
        ("actual_hash", .str actual_hash),
        ("message", .str "Hash mismatch - parent artifact has been modified or corrupted")]

/-- The `for i, (declared, actual) in enumerate(zip(...))` loop: recompute
each fetched parent's canonical hash (propagating `compute` errors, which
cannot fire for the fixed sha256 default) and collect a mismatch entry per
differing index. -/
def collectMismatches (lib : HashLib) : Nat → List Json → List Json → Except String (List Json)
  | _, [], _ => .ok []
  | _, _ :: _, [] => .ok []
  | i, declared :: drest, actual :: arest =>
    match compute_artifact_hash lib actual "sha256" with
    | .error e => .error e
    | .ok actual_hash =>
      match collectMismatches lib (i + 1) drest arest with
      | .error e => .error e
      | .ok errs =>
        if beqJson (jGetD declared "artifact_hash") (.str actual_hash) then .ok errs
        else .ok (mismatchEntry i declared actual_hash :: errs)

/-- The indeterminate result returned when no parent artifacts are
supplied. -/
def indeterminateResult (declared_count : Nat) : Json :=
  .obj [("valid", .null),
        ("message", .str "Cannot validate without fetching parent artifacts from R2"),
        ("declared_parent_count", .num declared_count)]

/-- `validate_lineage_integrity(artifact, parent_artifacts_from_r2)`.
Python's `if not parent_artifacts_from_r2` treats `None` and the empty list
alike, producing the indeterminate result.  A `parent_artifacts` value that
is present but not a list would crash Python later and cannot occur;
absence yields `[]` via `.get(..., [])`. -/
def validate_lineage_integrity (lib : HashLib) (artifact : Json)
    (parent_artifacts_from_r2 : Option (List Json)) : Except String Json :=
  let declared_parents :=
    match jsonGet artifact "parent_artifacts" with
    | some (.arr l) => l
    | _ => []
  match parent_artifacts_from_r2 with
  | none => .ok (indeterminateResult declared_parents.length)
  | some fetched =>
    if fetched.isEmpty then .ok (indeterminateResult declared_parents.length)
    else if declared_parents.length = fetched.length then
      match collectMismatches lib 0 declared_parents fetched with
      | .error e => .error e
      | .ok errors =>
        .ok (.obj [("valid", .bool (decide (errors.length = 0))),
                   ("parent_count", .num declared_parents.length),
                   ("errors", if errors.isEmpty then .null else .arr errors)])
    else
      .ok (.obj [("valid", .bool false),
                 ("error", .str ("Parent count mismatch: declared " ++
                   natRepr declared_parents.length ++ ", provided " ++
                   natRepr fetched.length))])

/-- Pure characterization of the mismatch collector (sha256 never errors). -/
def mismatchList (lib : HashLib) : Nat → List Json → List Json → List Json
  | _, [], _ => []
  | _, _ :: _, [] => []
  | i, declared :: drest, actual :: arest =>
    if beqJson (jGetD declared "artifact_hash") (.str (sha256HashOf lib actual)) then
      mismatchList lib (i + 1) drest arest
    else mismatchEntry i declared (sha256HashOf lib actual) :: mismatchList lib (i + 1) drest arest

theorem collectMismatches_eq (lib : HashLib) : ∀ (declared fetched : List Json) (i : Nat),
    collectMismatches lib i declared fetched = .ok (mismatchList lib i declared fetched)
  | [], fetched, i => by cases fetched <;> rfl
  | _ :: _, [], _ => rfl
  | d :: ds, a :: as', i => by
    rw [collectMismatches, compute_sha256_eq, collectMismatches_eq lib ds as' (i + 1)]
    by_cases hb : beqJson (jGetD d "artifact_hash") (.str (sha256HashOf lib a)) = true
    · simp [mismatchList, hb]
    · simp [mismatchList, hb]

/-- "The declared hash at this index equals the recomputed canonical hash
of the fetched parent." -/
def matchesDeclared (lib : HashLib) (declared actual : Json) : Prop :=
  jGetD declared "artifact_hash" = .str (sha256HashOf lib actual)

theorem mismatchList_of_all_match (lib : HashLib) : ∀ {ds fs : List Json},
    List.Forall₂ (matchesDeclared lib) ds fs → ∀ i, mismatchList lib i ds fs = []
  | _, _, .nil, _ => rfl
  | _, _, .cons hda hrest, i => by
    rw [mismatchList, if_pos ((beqJson_iff _ _).mpr hda)]
    exact mismatchList_of_all_match lib hrest (i + 1)

theorem mismatchList_single (lib : HashLib) : ∀ {ds1 fs1 : List Json},
    List.Forall₂ (matchesDeclared lib) ds1 fs1 →
    ∀ (i : Nat) (d a : Json) (ds2 fs2 : List Json),
      List.Forall₂ (matchesDeclared lib) ds2 fs2 → ¬ matchesDeclared lib d a →
      mismatchList lib i (ds1 ++ d :: ds2) (fs1 ++ a :: fs2) =
        [mismatchEntry (i + ds1.length) d (sha256HashOf lib a)]
  | _, _, .nil, i, d, a, ds2, fs2, hsuf, hmis => by
    have hbeq : beqJson (jGetD d "artifact_hash") (.str (sha256HashOf lib a)) = false := by
      rcases hh : beqJson (jGetD d "artifact_hash") (.str (sha256HashOf lib a)) with - | -
      · rfl
      · exact absurd ((beqJson_iff _ _).mp hh) hmis
    simp only [List.nil_append, mismatchList, hbeq, Bool.false_eq_true, if_false,
      List.length_nil, Nat.add_zero]
    rw [mismatchList_of_all_match lib hsuf (i + 1)]
  | _, _, .cons hda hrest, i, d, a, ds2, fs2, hsuf, hmis => by
    simp only [List.cons_append, mismatchList, if_pos ((beqJson_iff _ _).mpr hda),
      List.length_cons, List.append_eq]
    rw [mismatchList_single lib hrest (i + 1) d a ds2 fs2 hsuf hmis]
    refine congrArg (fun n => [mismatchEntry n d (sha256HashOf lib a)]) ?_
    omega

/-- C8 (amended).  For an artifact declaring parents and a non-empty fetched
list of the same length: when every fetched parent's recomputed canonical
hash equals the declared hash at the same index the result is
`{valid: true, parent_count: n, errors: null}` (the `errors` field is null,
not an empty list); when exactly one index disagrees the result is
`{valid: false, parent_count: n, errors: [e]}` with `e` the single mismatch
entry identifying that parent's index, key, declared hash and recomputed
hash. -/
theorem validate_lineage_integrity_results (lib : HashLib) (artifact : Json)
    (declared fetched : List Json)
    (hdecl : jsonGet artifact "parent_artifacts" = some (.arr declared))
    (hlen : declared.length = fetched.length) (hne : fetched ≠ []) :
    (List.Forall₂ (matchesDeclared lib) declared fetched →
      validate_lineage_integrity lib artifact (some fetched) =
        .ok (.obj [("valid", .bool true),
                   ("parent_count", .num declared.length),
                   ("errors", .null)]))
    ∧ (∀ (ds1 : List Json) (d : Json) (ds2 fs1 : List Json) (a : Json) (fs2 : List Json),
        declared = ds1 ++ d :: ds2 → fetched = fs1 ++ a :: fs2 →
        List.Forall₂ (matchesDeclared lib) ds1 fs1 →
        List.Forall₂ (matchesDeclared lib) ds2 fs2 →
        ¬ matchesDeclared lib d a →
        validate_lineage_integrity lib artifact (some fetched) =
          .ok (.obj [("valid", .bool false),
                     ("parent_count", .num declared.length),
                     ("errors", .arr [mismatchEntry ds1.length d (sha256HashOf lib a)])])) := by
  have hempty : fetched.isEmpty = false := by
    cases fetched
    · exact absurd rfl hne
    · rfl
  constructor
  · intro hall
    simp only [validate_lineage_integrity, hdecl, hempty, Bool.false_eq_true, if_false,
      if_pos hlen, collectMismatches_eq]
    rw [mismatchList_of_all_match lib hall 0]
    rfl
  · intro ds1 d ds2 fs1 a fs2 hd hf hpre hsuf hmis
    simp only [validate_lineage_integrity, hdecl, hempty, Bool.false_eq_true, if_false,
      if_pos hlen, collectMismatches_eq]
    subst hd
    subst hf
    rw [mismatchList_single lib hpre 0 d a ds2 fs2 hsuf hmis]
    simp only [Nat.zero_add]
    rfl

/-- C8 witness: one declared parent whose hash matches the recomputation
yields valid true with null errors; instantiated with a constant digest. -/
theorem validate_lineage_integrity_results_witness :
    validate_lineage_integrity ⟨fun _ => "h", fun _ => "", fun _ => ""⟩
        (.obj [("parent_artifacts", .arr [.obj [("artifact_key", .str "k1"),
          ("artifact_hash", .str "sha256:h")]])])
        (some [.obj [("x", .num 1)]]) =
      .ok (.obj [("valid", .bool true), ("parent_count", .num 1), ("errors", .null)]) :=
  (validate_lineage_integrity_results ⟨fun _ => "h", fun _ => "", fun _ => ""⟩
      (.obj [("parent_artifacts", .arr [.obj [("artifact_key", .str "k1"),
        ("artifact_hash", .str "sha256:h")]])])
      [.obj [("artifact_key", .str "k1"), ("artifact_hash", .str "sha256:h")]]
      [.obj [("x", .num 1)]] (by rfl) (by rfl) (by simp)).1
    (List.Forall₂.cons (by rfl) List.Forall₂.nil)

/-- C8 counterexample: with one matching parent the source returns
`errors: null`, not the empty list the claim asserts; and with zero declared
parents and the (vacuously all-matching) empty fetched list, the result is
the indeterminate `valid: null`, not `valid: true`. -/
theorem lineage_errors_null_counterexample :
    (validate_lineage_integrity ⟨fun _ => "h", fun _ => "", fun _ => ""⟩
        (.obj [("parent_artifacts", .arr [.obj [("artifact_key", .str "k1"),
          ("artifact_hash", .str "sha256:h")]])])
        (some [.obj [("x", .num 1)]]) =
      .ok (.obj [("valid", .bool true), ("parent_count", .num 1), ("errors", .null)]))
    ∧ Json.null ≠ Json.arr []
    ∧ (validate_lineage_integrity ⟨fun _ => "h", fun _ => "", fun _ => ""⟩
        (.obj [("parent_artifacts", .arr [])]) (some []) =
      .ok (indeterminateResult 0))
    ∧ Json.null ≠ Json.bool true := by
  refine ⟨by rfl, ?_, by rfl, ?_⟩
  · intro h
    exact Json.noConfusion h
  · intro h
    exact Json.noConfusion h
